import Mathlib

/-!
Shallow embedding of the simulation core of main.py (Cartoon Survivor, pygame) and
theorems settling claims C1-C10 about it.

Modelling conventions:
* Python floats are modelled as exact rationals (ℚ); pygame.Rect stores integers (ℤ).
* The global random number generator is modelled as an explicit RandomSource of
  integer and rational draws, consumed at an explicit counter that is threaded
  through the definitions.  randint a b yields an arbitrary value in [a, b]
  (via emod), uniform a b an arbitrary rational clamped into [a, b]; weighted
  choices pick an arbitrary element.  Every theorem quantifies over the source,
  so the theorems hold for all random choices.
* math.hypot, math.cos, math.sin, math.radians return irrational reals; where the
  code consumes their numeric value (vector normalisation, steering offsets) they
  are modelled by an abstract FloatEnv of rational-valued functions.  Where the code
  only compares a distance against a bound c (collision and contact tests), the
  comparison distance ≤ c is embedded exactly as 0 ≤ c ∧ dx^2 + dy^2 ≤ c^2, which
  agrees with the exact real semantics of sqrt for all rational inputs.
* The real-valued translation of the geometry helpers (distance,
  circle_rect_collision) is kept over ℝ for claim C7.
-/

namespace Survivor

/-- Configuration constants from the Config section of main.py. -/
def WORLD_W : ℤ := 2400

/-- World height in pixels. -/
def WORLD_H : ℤ := 1800

/-- Player collision radius. -/
def PLAYER_RADIUS : ℚ := 16

/-- Mob collision radius. -/
def MOB_RADIUS : ℚ := 14

/-- Lava pool radius. -/
def LAVA_RADIUS : ℚ := 60

/-- Level duration: 10 * 60 seconds. -/
def LEVEL_DURATION_SECONDS : ℚ := 600

/-- Number of obstacles requested by main. -/
def OBSTACLE_COUNT : ℕ := 80

/-- Radius below which two obstacle centers count as nearby for clustering. -/
def NEAR_RADIUS : ℤ := 120

/-- Maximum obstacles allowed in a cluster. -/
def MAX_NEARBY_OBSTACLES : ℕ := 2

/-- Grid bias used to spread placement. -/
def GRID_BIAS : ℤ := 200

/-- Extra spacing when checking overlap. -/
def OBSTACLE_SAFETY_MARGIN : ℤ := 8

/-- Model of pygame.Rect: integer position and size. -/
structure Rect where
  x : ℤ
  y : ℤ
  w : ℤ
  h : ℤ
deriving DecidableEq, Repr, Inhabited

/-- pygame rect.left. -/
def Rect.left (r : Rect) : ℤ := r.x

/-- pygame rect.right = x + w. -/
def Rect.right (r : Rect) : ℤ := r.x + r.w

/-- pygame rect.top. -/
def Rect.top (r : Rect) : ℤ := r.y

/-- pygame rect.bottom = y + h. -/
def Rect.bottom (r : Rect) : ℤ := r.y + r.h

/-- pygame rect.centerx = x + w // 2 (python floor division; Int.ediv agrees with
python's floor division for the positive divisor 2). -/
def Rect.centerx (r : Rect) : ℤ := r.x + Int.ediv r.w 2

/-- pygame rect.centery = y + h // 2. -/
def Rect.centery (r : Rect) : ℤ := r.y + Int.ediv r.h 2

/-- pygame rect.inflate(a, b): grow in place keeping the center, i.e. move the corner
by a // 2 and b // 2 and enlarge the size by a and b. -/
def Rect.inflate (r : Rect) (a b : ℤ) : Rect :=
  { x := r.x - Int.ediv a 2, y := r.y - Int.ediv b 2, w := r.w + a, h := r.h + b }

/-- pygame rect.colliderect: true iff the two rectangles overlap with nonzero area
(strict inequalities, touching edges do not collide). -/
def Rect.colliderectB (a b : Rect) : Bool :=
  decide (a.x < b.x + b.w ∧ b.x < a.x + a.w ∧ a.y < b.y + b.h ∧ b.y < a.y + a.h)

/-- pygame rect.collidepoint for a rational (float) point: membership in the
half-open box [left, right) x [top, bottom).  (pygame truncates the float
coordinates to integers; for the nonnegative coordinates produced by the game this
truncation is a floor and the truncated test agrees with the test below.) -/
def Rect.collidepointB (r : Rect) (px py : ℚ) : Bool :=
  decide ((r.left : ℚ) ≤ px ∧ px < (r.right : ℚ) ∧ (r.top : ℚ) ≤ py ∧ py < (r.bottom : ℚ))

/-- Helper clamp from main.py: max(a, min(b, v)). -/
def clamp {α : Type} [LinearOrder α] (v a b : α) : α := max a (min b v)

/-- Helper distance from main.py over the reals: math.hypot(ax - bx, ay - by). -/
noncomputable def distance (ax ay bx by' : ℝ) : ℝ :=
  Real.sqrt ((ax - bx) ^ 2 + (ay - by') ^ 2)

/-- Translation of circle_rect_collision from main.py over the reals: clamp the
circle center into the rectangle to get the closest point, and compare the
distance to the radius. -/
noncomputable def circle_rect_collision (cx cy r : ℝ) (rect : Rect) : Prop :=
  distance cx cy (clamp cx (rect.left : ℝ) (rect.right : ℝ))
      (clamp cy (rect.top : ℝ) (rect.bottom : ℝ)) ≤ r

/-- Modelled from the spec: the set of distances from the point (cx, cy) to the
points of the solid rectangle [left, right] x [top, bottom]; the minimum distance
of the claim about circle_rect_collision is the infimum of this set. -/
def rectDistSet (cx cy : ℝ) (rect : Rect) : Set ℝ :=
  {d : ℝ | ∃ px py : ℝ, (rect.left : ℝ) ≤ px ∧ px ≤ (rect.right : ℝ) ∧
    (rect.top : ℝ) ≤ py ∧ py ≤ (rect.bottom : ℝ) ∧ d = distance cx cy px py}

/-- Squared distance over the rationals. -/
def distSq (ax ay bx by' : ℚ) : ℚ := (ax - bx) ^ 2 + (ay - by') ^ 2

/-- Exact embedding of the float comparison distance(ax, ay, bx, by) ≤ c: since a
real square root is nonnegative and monotone, this holds iff 0 ≤ c and the squared
distance is at most c^2. -/
def distLeB (ax ay bx by' c : ℚ) : Bool :=
  decide (0 ≤ c ∧ distSq ax ay bx by' ≤ c ^ 2)

/-- Exact embedding of the float comparison distance(ax, ay, bx, by) < c. -/
def distLtB (ax ay bx by' c : ℚ) : Bool :=
  decide (0 < c ∧ distSq ax ay bx by' < c ^ 2)

/-- Executable rational version of circle_rect_collision used inside the
simulation step, with the distance comparison embedded exactly (see distLeB). -/
def circle_rect_collisionB (cx cy r : ℚ) (rect : Rect) : Bool :=
  distLeB cx cy (clamp cx (rect.left : ℚ) (rect.right : ℚ))
    (clamp cy (rect.top : ℚ) (rect.bottom : ℚ)) r

/-- Model of python's global random module: a stream of integer draws and a stream
of rational draws, read at an explicit counter. -/
structure RandomSource where
  ints : ℕ → ℤ
  rats : ℕ → ℚ

/-- random.randint(a, b): an arbitrary integer in [a, b] (assuming a ≤ b),
obtained from the stream by reduction modulo the size of the range. -/
def pyrandint (src : RandomSource) (k : ℕ) (a b : ℤ) : ℤ :=
  a + src.ints k % (b - a + 1)

/-- random.uniform(a, b): an arbitrary rational in [a, b], obtained by clamping the
stream value into the range. -/
def pyuniform (src : RandomSource) (k : ℕ) (a b : ℚ) : ℚ :=
  clamp (src.rats k) a b

/-- random.choice / random.choices on a nonempty list: an arbitrary element,
selected by an index from the stream (the weights of random.choices only shape the
distribution, which the model abstracts away). -/
def pychoice (src : RandomSource) (k : ℕ) (l : List String) : String :=
  l.getD (Int.toNat (src.ints k % (l.length : ℤ))) ""

/-- Enemy type tags. -/
def ENEMY_TYPES : List String := ["melee", "shooter", "lava"]

/-- Obstacle dataclass: a rectangle and a cosmetic kind. -/
structure Obstacle where
  rect : Rect
  kind : String
deriving DecidableEq, Repr, Inhabited

/-- Mob dataclass (field order as in main.py); id is drawn by the dataclass
default factory randint(0, 999999). -/
structure Mob where
  x : ℚ
  y : ℚ
  hp : ℚ
  speed : ℚ
  type : String
  cooldown : ℚ
  id : ℤ
deriving DecidableEq, Repr

/-- Result of the spawn retry loop: chosen position, whether the uniform-random
fallback produced it, the number of loop iterations executed, and the next
random-stream counter. -/
structure SpawnResult where
  x : ℚ
  y : ℚ
  fallback : Bool
  iters : ℕ
  k : ℕ
deriving Repr

/-- Inner while-True loop of spawn_mob.  tries is the shared rejection counter of
the source; the structural fuel argument maintains fuel = 501 - tries along the
entry spawnLoop src px py obs 501 0 k, so the fuel-0 branch is unreachable
(the loop body recurses only while tries + 1 ≤ 500) and merely makes the
recursion structural. -/
def spawnLoop (src : RandomSource) (player_x player_y : ℚ) (obstacles : List Obstacle) :
    ℕ → ℕ → ℕ → SpawnResult
  | 0, _, k =>
      { x := pyuniform src k 0 (WORLD_W : ℚ), y := pyuniform src (k + 1) 0 (WORLD_H : ℚ),
        fallback := true, iters := 0, k := k + 2 }
  | fuel + 1, tries, k =>
      let hix : ℤ := if 0 < Int.ediv WORLD_W GRID_BIAS then Int.ediv WORLD_W GRID_BIAS else 1
      let hiy : ℤ := if 0 < Int.ediv WORLD_H GRID_BIAS then Int.ediv WORLD_H GRID_BIAS else 1
      let gx := pyrandint src k 0 hix
      let gy := pyrandint src (k + 1) 0 hiy
      let x0 : ℚ := (gx * GRID_BIAS : ℤ) +
        pyuniform src (k + 2) (-(GRID_BIAS : ℚ) / 2) ((GRID_BIAS : ℚ) / 2)
      let y0 : ℚ := (gy * GRID_BIAS : ℤ) +
        pyuniform src (k + 3) (-(GRID_BIAS : ℚ) / 2) ((GRID_BIAS : ℚ) / 2)
      let x := clamp x0 0 (WORLD_W : ℚ)
      let y := clamp y0 0 (WORLD_H : ℚ)
      if distLtB x y player_x player_y 300 then
        if tries + 1 > 300 then
          { x := pyuniform src (k + 4) 0 (WORLD_W : ℚ),
            y := pyuniform src (k + 5) 0 (WORLD_H : ℚ),
            fallback := true, iters := 1, k := k + 6 }
        else
          let r := spawnLoop src player_x player_y obstacles fuel (tries + 1) (k + 4)
          { r with iters := r.iters + 1 }
      else if obstacles.any (fun o =>
          (o.rect.inflate (OBSTACLE_SAFETY_MARGIN * 2) (OBSTACLE_SAFETY_MARGIN * 2)).collidepointB
            x y) then
        if tries + 1 > 500 then
          { x := pyuniform src (k + 4) 0 (WORLD_W : ℚ),
            y := pyuniform src (k + 5) 0 (WORLD_H : ℚ),
            fallback := true, iters := 1, k := k + 6 }
        else
          let r := spawnLoop src player_x player_y obstacles fuel (tries + 1) (k + 4)
          { r with iters := r.iters + 1 }
      else
        { x := x, y := y, fallback := false, iters := 1, k := k + 4 }

/-- Translation of spawn_mob: run the retry loop, then draw type, hp, speed,
cooldown and the dataclass id.  Returns the mob and the next stream counter. -/
def spawn_mob (src : RandomSource) (minute : ℤ) (player_x player_y : ℚ)
    (obstacles : List Obstacle) (k : ℕ) : Mob × ℕ :=
  let r := spawnLoop src player_x player_y obstacles 501 0 k
  let t := pychoice src r.k ENEMY_TYPES
  let hp : ℚ := 22 + (minute : ℚ) * 15 + pyuniform src (r.k + 1) (-4) 6
  let speed : ℚ := 55 + (minute : ℚ) * 8 + pyuniform src (r.k + 2) (-8) 8
  let cooldown := pyuniform src (r.k + 3) 0.8 2.2
  let id := pyrandint src (r.k + 4) 0 999999
  ({ x := r.x, y := r.y, hp := hp, speed := speed, type := t, cooldown := cooldown, id := id },
    r.k + 5)

/-- Truncation toward zero, the behaviour of python's int() on a float. -/
def pytrunc (q : ℚ) : ℤ := Int.tdiv q.num (q.den : ℤ)

/-- Obstacle kind tags of generate_obstacles. -/
def KINDS : List String := ["tree", "rock", "house", "water", "hay"]

/-- Comparison distance(centers) < NEAR_RADIUS on the integer rect centers,
embedded exactly via squares (both sides are nonnegative). -/
def nearB (a b : Rect) : Bool :=
  decide ((a.centerx - b.centerx) ^ 2 + (a.centery - b.centery) ^ 2 < NEAR_RADIUS ^ 2)

/-- Jittered grid candidate centers of generate_obstacles (one per cell, row-major
as in the nested for loops); each cell consumes two rational draws. -/
def candidateCenters (src : RandomSource) (k0 x_cells y_cells : ℕ) : List (ℤ × ℤ) :=
  (List.range x_cells).flatMap (fun gx =>
    (List.range y_cells).map (fun gy =>
      (pytrunc (((gx : ℚ) + 0.5) * (WORLD_W : ℚ) / (x_cells : ℚ) +
          pyuniform src (k0 + 2 * (gx * y_cells + gy)) (-(GRID_BIAS : ℚ) / 3)
            ((GRID_BIAS : ℚ) / 3)),
        pytrunc (((gy : ℚ) + 0.5) * (WORLD_H : ℚ) / (y_cells : ℚ) +
          pyuniform src (k0 + 2 * (gx * y_cells + gy) + 1) (-(GRID_BIAS : ℚ) / 3)
            ((GRID_BIAS : ℚ) / 3)))))

/-- random.shuffle, modelled as repeatedly extracting the element at a
stream-chosen index (this reaches exactly the permutations of the input; the
structural fuel is the length of the list). -/
def shuffleBy (src : RandomSource) : ℕ → ℕ → List (ℤ × ℤ) → List (ℤ × ℤ)
  | 0, _, _ => []
  | _ + 1, _, [] => []
  | fuel + 1, k, a :: l =>
      let i := Int.toNat (src.ints k % ((a :: l).length : ℤ))
      (a :: l).getD i (0, 0) :: shuffleBy src fuel (k + 1) ((a :: l).eraseIdx i)

/-- Overlap test of generate_obstacles: the candidate rect inflated by twice the
safety margin against an already accepted rect. -/
def overlapsInflatedB (rect : Rect) (o : Obstacle) : Bool :=
  (rect.inflate (OBSTACLE_SAFETY_MARGIN * 2) (OBSTACLE_SAFETY_MARGIN * 2)).colliderectB o.rect

/-- First placement phase of generate_obstacles: walk the shuffled candidates,
stopping once the target count or the try budget is reached; reject candidates
that touch the center spawn area, overlap an accepted obstacle (inflated check),
or already have MAX_NEARBY_OBSTACLES accepted obstacles nearby (the python loop
counts with an early break at the maximum; counting all of them gives the same
comparison).  Returns the accepted obstacles and the next stream counter. -/
def phase1 (src : RandomSource) (count max_tries : ℕ) (center_area : Rect) :
    List (ℤ × ℤ) → ℕ → ℕ → List Obstacle → List Obstacle × ℕ
  | [], _, k, obs => (obs, k)
  | (cx, cy) :: rest, tries, k, obs =>
      if count ≤ obs.length ∨ max_tries ≤ tries then (obs, k)
      else
        let w := pyrandint src k 40 160
        let h := pyrandint src (k + 1) 40 140
        let x := clamp (cx + pyrandint src (k + 2) (Int.ediv (-GRID_BIAS) 2) (Int.ediv GRID_BIAS 2))
          0 (WORLD_W - w)
        let y := clamp (cy + pyrandint src (k + 3) (Int.ediv (-GRID_BIAS) 2) (Int.ediv GRID_BIAS 2))
          0 (WORLD_H - h)
        let rect : Rect := ⟨x, y, w, h⟩
        if rect.colliderectB center_area then
          phase1 src count max_tries center_area rest (tries + 1) (k + 4) obs
        else if obs.any (fun o => overlapsInflatedB rect o) then
          phase1 src count max_tries center_area rest (tries + 1) (k + 4) obs
        else if MAX_NEARBY_OBSTACLES ≤ obs.countP (fun o => nearB o.rect rect) then
          phase1 src count max_tries center_area rest (tries + 1) (k + 4) obs
        else
          phase1 src count max_tries center_area rest (tries + 1) (k + 5)
            (obs ++ [⟨rect, pychoice src (k + 4) KINDS⟩])

/-- Second placement phase of generate_obstacles: random placements under the same
checks, while the target count is not reached; the structural fuel is
count * 12 - extra_tries, which every path of the python loop body decrements by
exactly one. -/
def phase2 (src : RandomSource) (count : ℕ) (center_area : Rect) :
    ℕ → ℕ → List Obstacle → List Obstacle × ℕ
  | 0, k, obs => (obs, k)
  | fuel + 1, k, obs =>
      if count ≤ obs.length then (obs, k)
      else
        let w := pyrandint src k 40 140
        let h := pyrandint src (k + 1) 40 120
        let x := pyrandint src (k + 2) 0 (WORLD_W - w)
        let y := pyrandint src (k + 3) 0 (WORLD_H - h)
        let rect : Rect := ⟨x, y, w, h⟩
        if rect.colliderectB center_area then
          phase2 src count center_area fuel (k + 4) obs
        else if obs.any (fun o => overlapsInflatedB rect o) then
          phase2 src count center_area fuel (k + 4) obs
        else if MAX_NEARBY_OBSTACLES ≤ obs.countP (fun o => nearB o.rect rect) then
          phase2 src count center_area fuel (k + 4) obs
        else
          phase2 src count center_area fuel (k + 5) (obs ++ [⟨rect, pychoice src (k + 4) KINDS⟩])

/-- Read an adjacency list (python adj[u]). -/
def adjAt (adj : List (List ℕ)) (u : ℕ) : List ℕ := adj.getD u []

/-- Append the edge i-j in both directions (adj[i].append(j); adj[j].append(i)). -/
def add_edge (adj : List (List ℕ)) (i j : ℕ) : List (List ℕ) :=
  let a1 := adj.set i (adjAt adj i ++ [j])
  a1.set j (adjAt a1 j ++ [i])

/-- Index pairs (i, j) with i < j < n, in the iteration order of the nested
for i in range(n) / for j in range(i + 1, n) loops of build_adj_list. -/
def allPairs (n : ℕ) : List (ℕ × ℕ) :=
  (List.range n).flatMap (fun i => (List.range' (i + 1) (n - (i + 1))).map (fun j => (i, j)))

/-- Body of the nested loops of build_adj_list: add the edge for a pair of
indices whose obstacles have nearby centers. -/
def addPair (ob_list : List Obstacle) (adj : List (List ℕ)) (p : ℕ × ℕ) : List (List ℕ) :=
  if nearB (ob_list.getD p.1 default).rect (ob_list.getD p.2 default).rect then
    add_edge adj p.1 p.2
  else adj

/-- Translation of build_adj_list: for every index pair with nearby centers, add
the edge in both directions (the nested loops are flattened into the pair list,
preserving the iteration order). -/
def build_adj_list (ob_list : List Obstacle) : List (List ℕ) :=
  (allPairs ob_list.length).foldl (addPair ob_list) (List.replicate ob_list.length [])

/-- Push the not-yet-visited neighbours of a popped vertex, marking each visited
immediately as the python loop does (python pops from the end of the stack; the
stack is represented top-first, so append becomes cons).  The v < n guard is
redundant for adjacency lists built by build_adj_list, whose entries are all
smaller than the length; it only serves the fuel-sufficiency argument for
dfsRound. -/
def pushNbrs (n : ℕ) : List ℕ → Finset ℕ → List ℕ → Finset ℕ × List ℕ
  | [], visited, stack => (visited, stack)
  | v :: vs, visited, stack =>
      if v < n ∧ v ∉ visited then pushNbrs n vs (insert v visited) (v :: stack)
      else pushNbrs n vs visited stack

/-- Inner while-stack loop of connected_components.  Each iteration pops one
vertex into the component and pushes its fresh neighbours; the measure
card (range n minus visited) + length stack decreases by exactly one per
iteration, so fuel n + 1 always suffices and the fuel-0 branch is unreachable
from connected_components. -/
def dfsRound (adj : List (List ℕ)) : ℕ → List ℕ → Finset ℕ → List ℕ → List ℕ × Finset ℕ
  | 0, _, visited, comp => (comp, visited)
  | _ + 1, [], visited, comp => (comp, visited)
  | fuel + 1, u :: rest, visited, comp =>
      let s := pushNbrs adj.length (adjAt adj u) visited rest
      dfsRound adj fuel s.2 s.1 (comp ++ [u])

/-- Outer loop of connected_components: start a depth-first round at every not yet
visited index. -/
def ccLoop (adj : List (List ℕ)) : List ℕ → Finset ℕ → List (List ℕ) → List (List ℕ)
  | [], _, comps => comps
  | i :: rest, visited, comps =>
      if i ∈ visited then ccLoop adj rest visited comps
      else
        let r := dfsRound adj (adj.length + 1) [i] (insert i visited) []
        ccLoop adj rest r.2 (comps ++ [r.1])

/-- Translation of connected_components from generate_obstacles. -/
def connected_components (adj : List (List ℕ)) : List (List ℕ) :=
  ccLoop adj (List.range adj.length) ∅ []

/-- Stable descending insertion by key: a later element goes after the existing
elements whose key is at least its own, matching the stability of python's
sorted(comp, key=..., reverse=True). -/
def insertDescBy (key : ℕ → ℕ) (x : ℕ) : List ℕ → List ℕ
  | [] => [x]
  | y :: ys => if key x ≤ key y then y :: insertDescBy key x ys else x :: y :: ys

/-- Stable sort by key, descending. -/
def sortDescBy (key : ℕ → ℕ) (l : List ℕ) : List ℕ :=
  l.foldl (fun acc x => insertDescBy key x acc) []

/-- Removal bookkeeping for one component: if it is larger than
MAX_NEARBY_OBSTACLES, mark its highest-degree members (stable-descending by
degree), as many as needed to bring the size within the limit. -/
def removeStep (adj : List (List ℕ)) (acc : List ℕ) (comp : List ℕ) : List ℕ :=
  if MAX_NEARBY_OBSTACLES < comp.length then
    acc ++ (sortDescBy (fun idx => (adjAt adj idx).length) comp).take
      (comp.length - MAX_NEARBY_OBSTACLES)
  else acc

/-- Indices removed by the post-process: from every component larger than
MAX_NEARBY_OBSTACLES, the highest-degree members first, until the component size
is within the limit (python collects them in a set; only membership in the set is
used, so a list under membership models it). -/
def removalList (adj : List (List ℕ)) (comps : List (List ℕ)) : List ℕ :=
  comps.foldl (removeStep adj) []

/-- Post-process of generate_obstacles: drop the obstacles whose index is in the
removal set. -/
def prune_clusters (obs : List Obstacle) : List Obstacle :=
  let adj := build_adj_list obs
  let comps := connected_components adj
  let to_remove := removalList adj comps
  if to_remove.isEmpty then obs
  else (obs.enum.filter (fun p => !(to_remove.contains p.1))).map Prod.snd

/-- Translation of generate_obstacles: jittered shuffled grid candidates, the two
placement phases, then the cluster post-process. -/
def generate_obstacles (src : RandomSource) (count : ℕ) : List Obstacle :=
  let x_cells : ℕ := max 4 (Int.toNat (Int.ediv WORLD_W GRID_BIAS))
  let y_cells : ℕ := max 4 (Int.toNat (Int.ediv WORLD_H GRID_BIAS))
  let cands0 := candidateCenters src 0 x_cells y_cells
  let cands := shuffleBy src cands0.length (2 * (x_cells * y_cells)) cands0
  let max_tries := cands.length * 6
  let center_area : Rect := ⟨Int.ediv WORLD_W 2 - 400, Int.ediv WORLD_H 2 - 300, 800, 600⟩
  let r1 := phase1 src count max_tries center_area cands 0
    (2 * (x_cells * y_cells) + cands0.length) []
  let r2 := phase2 src count center_area (count * 12) r1.2 r1.1
  prune_clusters r2.1

/-- Abstract model of the real-valued float functions consumed for their numeric
value (vector normalisation and steering): math.hypot, math.cos, math.sin,
math.radians.  The theorems below quantify over this environment. -/
structure FloatEnv where
  hypot : ℚ → ℚ → ℚ
  cos : ℚ → ℚ
  sin : ℚ → ℚ
  radians : ℚ → ℚ

/-- Champion preset record (the CHAMPIONS dict entries). -/
structure Champion where
  name : String
  desc : String
  attack_type : String
  proj_speed : ℚ
  proj_dmg : ℚ
  cooldown : ℚ
  range : ℚ
deriving DecidableEq, Repr

/-- CHAMPIONS dict; main.py only looks up the three keys below, so any other key
falls through to the knight entry. -/
def CHAMPIONS (key : String) : Champion :=
  if key = "mage" then
    ⟨"Mage", "Shoots fireballs (medium speed, high damage).", "projectile", 420, 28, 0.7, 520⟩
  else if key = "rogue" then
    ⟨"Rogue", "Fires fast arrows (low damage, fast rate).", "projectile", 650, 14, 0.35, 620⟩
  else
    ⟨"Knight", "Short-range melee sword (high damage).", "melee", 0, 36, 0.5, 56⟩

/-- Player dataclass with its field defaults. -/
structure Player where
  x : ℚ
  y : ℚ
  hp : ℚ := 100
  level : ℤ := 1
  xp : ℤ := 0
  speed : ℚ := 250
  attack_cooldown : ℚ := 0.5
  attack_timer : ℚ := 0
  champion : String := "mage"
  proj_speed : ℚ := 420
  proj_dmg : ℚ := 20
  attack_range : ℚ := 520
  attack_type : String := "projectile"
deriving DecidableEq, Repr

/-- Projectile dataclass. -/
structure Projectile where
  x : ℚ
  y : ℚ
  vx : ℚ
  vy : ℚ
  speed : ℚ
  dmg : ℚ
  owner : String
  ttl : ℚ := 6
deriving DecidableEq, Repr

/-- LavaPool dataclass. -/
structure LavaPool where
  x : ℚ
  y : ℚ
  radius : ℚ
  duration : ℚ
  tick : ℚ := 0
deriving DecidableEq, Repr

/-- Pressed-key snapshot for the directional keys read in the playing state. -/
structure Keys where
  left : Bool := false
  right : Bool := false
  up : Bool := false
  down : Bool := false
  a : Bool := false
  d : Bool := false
  w : Bool := false
  s : Bool := false
deriving DecidableEq, Repr

/-- Keys snapshot with no key held. -/
def noKeys : Keys := {}

/-- Events consumed by the main loop: window quit and key presses. -/
inductive PyEvent where
  | quit : PyEvent
  | keydown : ℕ → PyEvent
deriving DecidableEq, Repr

/-- pygame key codes used by the loop. -/
def K_ESCAPE : ℕ := 27

/-- Key code of the digit 1 key. -/
def K_1 : ℕ := 49

/-- Key code of the digit 2 key. -/
def K_2 : ℕ := 50

/-- Key code of the digit 3 key. -/
def K_3 : ℕ := 51

/-- Whole mutable state of main(): the entities, the timers, the state tag and the
running flag (the camera is presentation-only and never read by the simulation, so
it is omitted); rngK is the counter into the random streams, modelling the global
python generator. -/
structure GameState where
  player : Player
  projectile_list : List Projectile
  lava_pools : List LavaPool
  mobs : List Mob
  obstacles : List Obstacle
  elapsed : ℚ
  spawn_acc : ℚ
  state : String
  running : Bool
  rngK : ℕ
deriving DecidableEq, Repr

/-- Base spawn period. -/
def BASE_SPAWN : ℚ := 1.7

/-- Initial world state after choose_champion(key): the default player at the
world center with the champion preset applied, no entities, state playing. -/
def initGameState (obstacles : List Obstacle) (key : String) : GameState :=
  let c := CHAMPIONS key
  { player :=
      { x := ((Int.ediv WORLD_W 2 : ℤ) : ℚ), y := ((Int.ediv WORLD_H 2 : ℤ) : ℚ),
        champion := key, attack_cooldown := c.cooldown, proj_speed := c.proj_speed,
        proj_dmg := c.proj_dmg, attack_range := c.range, attack_type := c.attack_type },
    projectile_list := [], lava_pools := [], mobs := [], obstacles := obstacles,
    elapsed := 0, spawn_acc := 0, state := "playing", running := true, rngK := 0 }

/-- Level-up menu resolution (keydown 1, 2 or 3 in the levelup state): apply the
chosen flat bonus, return to playing; the level += 0 line of the source is kept
as written (the level was already incremented when the menu was offered). -/
def applyLevelChoice (key : ℕ) (g : GameState) : GameState :=
  let p := g.player
  let p :=
    if key = K_1 then
      { p with proj_dmg := p.proj_dmg + 8 + (p.level : ℚ) * 2,
               attack_range := p.attack_range + 10 }
    else if key = K_2 then { p with speed := p.speed + 40 }
    else { p with hp := p.hp + 40 }
  { g with player := { p with level := p.level + 0 }, state := "playing" }

/-- Handling of one event of the main loop. -/
def processEvent (g : GameState) (ev : PyEvent) : GameState :=
  match ev with
  | PyEvent.quit => { g with running := false }
  | PyEvent.keydown key =>
      let g := if key = K_ESCAPE then { g with running := false } else g
      if g.state = "levelup" ∧ (key = K_1 ∨ key = K_2 ∨ key = K_3) then
        applyLevelChoice key g
      else g

/-- Event loop of one frame (the state is live across the fold, as in the source:
after a level choice switches the state to playing, further choice keys in the
same frame are ignored). -/
def processEvents (events : List PyEvent) (g : GameState) : GameState :=
  events.foldl processEvent g

/-- Numeric value of a python bool. -/
def b2q (b : Bool) : ℚ := if b then 1 else 0

/-- Player movement of the playing branch: normalized input direction times speed
times dt, rejected entirely if the player circle would intersect any obstacle,
otherwise applied and clamped to the world.  (If the abstract hypot returned 0 the
division below would be division by zero; the real hypot of a nonzero integer
vector is nonzero, so this does not arise for the true environment.) -/
def move_player (env : FloatEnv) (dt : ℚ) (keys : Keys) (obstacles : List Obstacle)
    (p : Player) : Player :=
  let dx := b2q (keys.right || keys.d) - b2q (keys.left || keys.a)
  let dy := b2q (keys.down || keys.s) - b2q (keys.up || keys.w)
  if dx ≠ 0 ∨ dy ≠ 0 then
    let ln := env.hypot dx dy
    let dxn := dx / ln
    let dyn := dy / ln
    let new_x := p.x + dxn * p.speed * dt
    let new_y := p.y + dyn * p.speed * dt
    let can_move := obstacles.all (fun o => !(circle_rect_collisionB new_x new_y PLAYER_RADIUS o.rect))
    if can_move then
      { p with x := clamp new_x 0 (WORLD_W : ℚ), y := clamp new_y 0 (WORLD_H : ℚ) }
    else p
  else p

/-- Spawn interval for the current minute. -/
def spawn_interval (minute : ℤ) : ℚ := max 0.4 (BASE_SPAWN - (minute : ℚ) * 0.12)

/-- Spawn accumulator while-loop of the playing branch.  The python condition is
spawn_acc >= interval; the conjunct 0 < interval is an embedding guard for
termination and holds at the call site, where interval = spawn_interval minute
is at least 0.4. -/
def spawnWhile (src : RandomSource) (minute : ℤ) (px py : ℚ) (obstacles : List Obstacle)
    (interval : ℚ) (acc : ℚ) (mobs : List Mob) (k : ℕ) : ℚ × List Mob × ℕ :=
  if h : interval ≤ acc ∧ 0 < interval then
    let r := spawn_mob src minute px py obstacles k
    spawnWhile src minute px py obstacles interval (acc - interval) (mobs ++ [r.1]) r.2
  else (acc, mobs, k)
termination_by Int.toNat ⌊acc / interval⌋
decreasing_by
  have hne : interval ≠ 0 := ne_of_gt h.2
  have h2 : (acc - interval) / interval = acc / interval - 1 := by
    field_simp
  have h1 : (1 : ℚ) ≤ acc / interval := by
    rw [le_div_iff₀ h.2]
    simpa using h.1
  have h3 : (1 : ℤ) ≤ ⌊acc / interval⌋ := by
    exact_mod_cast Int.le_floor.2 (by exact_mod_cast h1)
  rw [h2, Int.floor_sub_one]
  omega

/-- Check that a circle of radius r at (nx, ny) touches no obstacle (the shared
body of the steering helpers of the mob updates). -/
def try_move_ok (obstacles : List Obstacle) (r nx ny : ℚ) : Bool :=
  obstacles.all (fun o => !(circle_rect_collisionB nx ny r o.rect))

/-- Deflection angles of the melee steering. -/
def melee_angles (env : FloatEnv) : List ℚ :=
  [0, env.radians 30, env.radians (-30), env.radians 60, env.radians (-60),
    env.radians 100, env.radians (-100)]

/-- Deflection angles of the shooter approach steering. -/
def shooter_approach_angles (env : FloatEnv) : List ℚ :=
  [0, env.radians 25, env.radians (-25), env.radians 50, env.radians (-50)]

/-- Deflection angles of the shooter back-up steering. -/
def shooter_backup_angles (env : FloatEnv) : List ℚ :=
  [0, env.radians 25, env.radians (-25)]

/-- Greedy local steering shared by the mob updates: rotate the unit direction by
each angle in turn and take the first position whose mob circle is unblocked. -/
def steer (env : FloatEnv) (obstacles : List Obstacle) (mx my vx vy step : ℚ) :
    List ℚ → Option (ℚ × ℚ)
  | [] => none
  | ang :: rest =>
      let ca := env.cos ang
      let sa := env.sin ang
      let dx_try := vx * ca - vy * sa
      let dy_try := vx * sa + vy * ca
      let nx := mx + dx_try * step
      let ny := my + dy_try * step
      if try_move_ok obstacles MOB_RADIUS nx ny then some (nx, ny)
      else steer env obstacles mx my vx vy step rest

/-- Position of a melee mob after its steering movement toward the player
(the position is unchanged when every deflection is blocked). -/
def melee_move (env : FloatEnv) (obstacles : List Obstacle) (dt : ℚ) (player : Player)
    (m : Mob) : ℚ × ℚ :=
  let vx := player.x - m.x
  let vy := player.y - m.y
  let d0 := env.hypot vx vy
  let dist := if d0 = 0 then 1 else d0
  let vxn := vx / dist
  let vyn := vy / dist
  let step := m.speed * dt
  match steer env obstacles m.x m.y vxn vyn step (melee_angles env) with
  | some (nx, ny) => (clamp nx 0 (WORLD_W : ℚ), clamp ny 0 (WORLD_H : ℚ))
  | none => (m.x, m.y)

/-- State threaded through the per-mob update fold: the live mobs list, the
player, the projectile and lava lists and the random counter. -/
structure MobUpd where
  mobs : List Mob
  player : Player
  projectile_list : List Projectile
  lava_pools : List LavaPool
  k : ℕ
deriving Repr

/-- Replace the first occurrence of a value in a list (python mutates the object
in place; the updated object is identified by its pre-update value, which is
exact whenever the list holds no duplicate equal to it). -/
def replaceFirst {α : Type} [DecidableEq α] : List α → α → α → List α
  | [], _, _ => []
  | x :: xs, a, b => if x = a then b :: xs else x :: replaceFirst xs a b

/-- Death bookkeeping at the end of one mob iteration: a mob whose hit points are
at most 0 is removed from the live list (try / except pass becomes erase, a no-op
when absent) and grants one experience point. -/
def finishMob (mobs : List Mob) (player : Player) (projs : List Projectile)
    (lavas : List LavaPool) (k : ℕ) (m : Mob) : MobUpd :=
  if m.hp ≤ 0 then
    { mobs := mobs.erase m, player := { player with xp := player.xp + 1 },
      projectile_list := projs, lava_pools := lavas, k := k }
  else
    { mobs := mobs, player := player, projectile_list := projs, lava_pools := lavas, k := k }

/-- Update of one mob of the snapshot: the cooldown tick, then the type-dependent
behaviour (melee steering and contact damage; shooter standoff and shot; lava
wander and pool drop), then death bookkeeping. -/
def update_mob (env : FloatEnv) (src : RandomSource) (dt : ℚ) (minute : ℤ)
    (obstacles : List Obstacle) (st : MobUpd) (m : Mob) : MobUpd :=
  let m1 := { m with cooldown := max 0 (m.cooldown - dt) }
  if m1.type = "melee" then
    let pos := melee_move env obstacles dt st.player m1
    let m2 := { m1 with x := pos.1, y := pos.2 }
    let player :=
      if distLeB m2.x m2.y st.player.x st.player.y (MOB_RADIUS + PLAYER_RADIUS) then
        { st.player with hp := st.player.hp - 12 * dt }
      else st.player
    finishMob (replaceFirst st.mobs m m2) player st.projectile_list st.lava_pools st.k m2
  else if m1.type = "shooter" then
    let vx := st.player.x - m1.x
    let vy := st.player.y - m1.y
    let d0 := env.hypot vx vy
    let dist := if d0 = 0 then 1 else d0
    let vxn := vx / dist
    let vyn := vy / dist
    let desired : ℚ := 380
    let m2 :=
      if desired < dist then
        match steer env obstacles m1.x m1.y vxn vyn (m1.speed * dt)
            (shooter_approach_angles env) with
        | some (nx, ny) => { m1 with x := clamp nx 0 (WORLD_W : ℚ), y := clamp ny 0 (WORLD_H : ℚ) }
        | none => m1
      else if dist < desired - 60 then
        match steer env obstacles m1.x m1.y (-vxn) (-vyn) (m1.speed * dt)
            (shooter_backup_angles env) with
        | some (nx, ny) => { m1 with x := clamp nx 0 (WORLD_W : ℚ), y := clamp ny 0 (WORLD_H : ℚ) }
        | none => m1
      else m1
    if m2.cooldown ≤ 0 ∧ dist ≤ 700 then
      let ps : ℚ := 420
      let projs := st.projectile_list ++
        [{ x := m2.x, y := m2.y, vx := vxn * ps, vy := vyn * ps, speed := ps,
           dmg := 18 + (minute : ℚ) * 2, owner := "mob" }]
      let m3 := { m2 with cooldown := pyuniform src st.k 1.2 2.0 }
      finishMob (replaceFirst st.mobs m m3) st.player projs st.lava_pools (st.k + 1) m3
    else
      finishMob (replaceFirst st.mobs m m2) st.player st.projectile_list st.lava_pools st.k m2
  else if m1.type = "lava" then
    let ang := src.rats st.k
    let nx := m1.x + env.cos ang * m1.speed * 0.25 * dt
    let ny := m1.y + env.sin ang * m1.speed * 0.25 * dt
    let m2 :=
      if try_move_ok obstacles MOB_RADIUS nx ny then
        { m1 with x := clamp nx 0 (WORLD_W : ℚ), y := clamp ny 0 (WORLD_H : ℚ) }
      else m1
    if m2.cooldown ≤ 0 then
      let lv : LavaPool :=
        { x := m2.x, y := m2.y, radius := LAVA_RADIUS,
          duration := 6 + pyuniform src (st.k + 1) (-1) 2 }
      let m3 := { m2 with cooldown := 4 + pyuniform src (st.k + 2) 0 3 }
      finishMob (replaceFirst st.mobs m m3) st.player st.projectile_list
        (st.lava_pools ++ [lv]) (st.k + 3) m3
    else
      finishMob (replaceFirst st.mobs m m2) st.player st.projectile_list st.lava_pools
        (st.k + 1) m2
  else
    finishMob (replaceFirst st.mobs m m1) st.player st.projectile_list st.lava_pools st.k m1

/-- Fold of update_mob over the snapshot of the mobs list taken at the for
statement (mobs[:]). -/
def mobLoop (env : FloatEnv) (src : RandomSource) (dt : ℚ) (minute : ℤ)
    (obstacles : List Obstacle) (snapshot : List Mob) (st : MobUpd) : MobUpd :=
  snapshot.foldl (update_mob env src dt minute obstacles) st

/-- State threaded through the projectile update fold. -/
structure ProjUpd where
  projectile_list : List Projectile
  player : Player
  mobs : List Mob
deriving Repr

/-- Mob-hit scan of a player projectile: the first mob of the snapshot within
range takes the damage and the projectile is removed. -/
def hitMobs (p : Projectile) (projs : List Projectile) (mobs : List Mob) :
    List Projectile × List Mob :=
  match mobs.find? (fun m => distLeB p.x p.y m.x m.y (MOB_RADIUS + 6)) with
  | some m => (projs.erase p, replaceFirst mobs m { m with hp := m.hp - p.dmg })
  | none => (projs, mobs)

/-- Update of one projectile of the snapshot: advance and age it, then remove it
on expiry, leaving the world, hitting an obstacle, hitting the player (mob-owned,
damaging the player), or hitting a mob (player-owned, first hit wins). -/
def update_projectile (dt : ℚ) (obstacles : List Obstacle) (st : ProjUpd)
    (p : Projectile) : ProjUpd :=
  let p1 := { p with ttl := p.ttl - dt, x := p.x + p.vx * dt, y := p.y + p.vy * dt }
  let projs := replaceFirst st.projectile_list p p1
  if p1.ttl ≤ 0 ∨ ¬(0 ≤ p1.x ∧ p1.x ≤ (WORLD_W : ℚ) ∧ 0 ≤ p1.y ∧ p1.y ≤ (WORLD_H : ℚ)) then
    { st with projectile_list := projs.erase p1 }
  else if obstacles.any (fun o => circle_rect_collisionB p1.x p1.y 4 o.rect) then
    { st with projectile_list := projs.erase p1 }
  else if p1.owner = "mob" ∧ distLeB p1.x p1.y st.player.x st.player.y (PLAYER_RADIUS + 6) then
    { projectile_list := projs.erase p1,
      player := { st.player with hp := st.player.hp - p1.dmg }, mobs := st.mobs }
  else if p1.owner = "player" then
    let r := hitMobs p1 projs st.mobs
    { projectile_list := r.1, player := st.player, mobs := r.2 }
  else
    { st with projectile_list := projs }

/-- Fold of update_projectile over the snapshot of the projectile list. -/
def projLoop (dt : ℚ) (obstacles : List Obstacle) (snapshot : List Projectile)
    (st : ProjUpd) : ProjUpd :=
  snapshot.foldl (update_projectile dt obstacles) st

/-- State threaded through the lava pool update fold. -/
structure LavaUpd where
  lava_pools : List LavaPool
  player : Player
deriving Repr

/-- Update of one lava pool: age it, remove it at expiry, and damage the player
continuously while inside the radius. -/
def update_lava (dt : ℚ) (st : LavaUpd) (lv : LavaPool) : LavaUpd :=
  let l1 := { lv with duration := lv.duration - dt, tick := lv.tick + dt }
  let lavas := replaceFirst st.lava_pools lv l1
  if l1.duration ≤ 0 then { lava_pools := lavas.erase l1, player := st.player }
  else if distLeB st.player.x st.player.y l1.x l1.y l1.radius then
    { lava_pools := lavas, player := { st.player with hp := st.player.hp - 28 * dt } }
  else { lava_pools := lavas, player := st.player }

/-- Fold of update_lava over the snapshot of the lava pool list. -/
def lavaLoop (dt : ℚ) (snapshot : List LavaPool) (st : LavaUpd) : LavaUpd :=
  snapshot.foldl (update_lava dt) st

/-- python min(mobs, key=distance to player): the first mob of the list attaining
the minimal distance (distance comparisons between mobs are embedded exactly by
comparing squared distances, since the real sqrt is monotone). -/
def nearest_mob (p : Player) : List Mob → Option Mob
  | [] => none
  | m :: rest =>
      some (rest.foldl
        (fun cur x => if distSq p.x p.y x.x x.y < distSq p.x p.y cur.x cur.y then x else cur) m)

/-- Player auto-attack: tick the attack timer; at zero pick the nearest mob and,
within range, either emit one projectile at it (projectile champions) or damage
every mob in melee range (melee champions), resetting the timer.  The standalone
distance value of the source (used for the range test and normalisation) is the
abstract hypot. -/
def auto_attack (env : FloatEnv) (dt : ℚ) (player : Player) (mobs : List Mob)
    (projs : List Projectile) : Player × List Mob × List Projectile :=
  let p := { player with attack_timer := player.attack_timer - dt }
  if p.attack_timer ≤ 0 then
    match nearest_mob p mobs with
    | none => (p, mobs, projs)
    | some nearest =>
        let dist := env.hypot (p.x - nearest.x) (p.y - nearest.y)
        if dist ≤ p.attack_range then
          if p.attack_type = "projectile" then
            let den := if dist = 0 then 1 else dist
            let dxn := (nearest.x - p.x) / den
            let dyn := (nearest.y - p.y) / den
            ({ p with attack_timer := p.attack_cooldown }, mobs,
              projs ++ [{ x := p.x, y := p.y, vx := dxn * p.proj_speed,
                          vy := dyn * p.proj_speed, speed := p.proj_speed,
                          dmg := p.proj_dmg, owner := "player" }])
          else
            ({ p with attack_timer := p.attack_cooldown },
              mobs.map (fun m =>
                if distLeB p.x p.y m.x m.y (p.attack_range + MOB_RADIUS) then
                  { m with hp := m.hp - p.proj_dmg }
                else m),
              projs)
        else (p, mobs, projs)
  else (p, mobs, projs)

/-- Final checks of the playing branch, in source order: the level-up threshold,
then the win check on elapsed time, then the death check on hit points (so death
takes precedence over win, and both take precedence over levelup). -/
def end_checks (g : GameState) : GameState :=
  let g :=
    if g.player.level * 5 ≤ g.player.xp then
      { g with player := { g.player with level := g.player.level + 1 }, state := "levelup" }
    else g
  let g := if LEVEL_DURATION_SECONDS ≤ g.elapsed then { g with state := "win" } else g
  if g.player.hp ≤ 0 then { g with state := "dead" } else g

/-- Whole playing branch of one frame, in source order: player movement, mob
spawning, the mob updates, the projectile updates, the lava updates, the player
auto-attack, then the level-up / win / death checks.  (The camera update is
presentation-only and omitted.) -/
def playingFrame (env : FloatEnv) (src : RandomSource) (dt : ℚ) (keys : Keys)
    (minute : ℤ) (g : GameState) : GameState :=
  let p1 := move_player env dt keys g.obstacles g.player
  let interval := spawn_interval minute
  let sw := spawnWhile src minute p1.x p1.y g.obstacles interval (g.spawn_acc + dt) g.mobs g.rngK
  let mobs1 := sw.2.1
  let st1 := mobLoop env src dt minute g.obstacles mobs1
    { mobs := mobs1, player := p1, projectile_list := g.projectile_list,
      lava_pools := g.lava_pools, k := sw.2.2 }
  let st2 := projLoop dt g.obstacles st1.projectile_list
    { projectile_list := st1.projectile_list, player := st1.player, mobs := st1.mobs }
  let la := lavaLoop dt st1.lava_pools { lava_pools := st1.lava_pools, player := st2.player }
  let aa := auto_attack env dt la.player st2.mobs st2.projectile_list
  end_checks
    { g with
      player := aa.1, mobs := aa.2.1, projectile_list := aa.2.2,
      lava_pools := la.lava_pools, spawn_acc := sw.1, rngK := st1.k }

/-- One iteration of the main loop after champion selection: add dt to the
elapsed time, compute the minute, process the events, then run the playing branch
if the (possibly event-updated) state is playing; the win, dead and levelup
states run no simulation. -/
def frame (env : FloatEnv) (src : RandomSource) (dt : ℚ) (keys : Keys)
    (events : List PyEvent) (g : GameState) : GameState :=
  let g1 := { g with elapsed := g.elapsed + dt }
  let minute : ℤ := ⌊g1.elapsed / 60⌋
  let g2 := processEvents events g1
  if g2.state = "playing" then playingFrame env src dt keys minute g2 else g2

/-- Adjacency of the cluster claim: two obstacles whose center-to-center distance
is below NEAR_RADIUS (embedded exactly by nearB). -/
def nearProp (a b : Obstacle) : Prop := nearB a.rect b.rect = true

/-- Adjacency between two positions of an obstacle list: distinct in-range
positions holding obstacles with nearby centers. -/
def nearIdx (l : List Obstacle) (i j : ℕ) : Prop :=
  i < l.length ∧ j < l.length ∧ i ≠ j ∧ nearProp (l.getD i default) (l.getD j default)

/-- Reachability in the obstacle graph (reflexive-transitive closure of the
adjacency); the connected component of i is the set of positions reachable
from i. -/
def reachIdx (l : List Obstacle) : ℕ → ℕ → Prop := Relation.ReflTransGen (nearIdx l)

/-- Connected component of position i of the obstacle list, as a set of
positions. -/
def componentOf (l : List Obstacle) (i : ℕ) : Set ℕ := {j : ℕ | reachIdx l i j}

/-- Separation predicate of claim C2: the two rectangles do not overlap once each
is inflated by the safety margin (pygame-style inflate, growing by the margin in
total, half per side).  Because pygame overlap is strict, inflating one rectangle
by twice the margin (the check done in generate_obstacles) is equivalent to
inflating each by the margin. -/
def inflatedDisjoint (a b : Obstacle) : Prop :=
  (a.rect.inflate OBSTACLE_SAFETY_MARGIN OBSTACLE_SAFETY_MARGIN).colliderectB
    (b.rect.inflate OBSTACLE_SAFETY_MARGIN OBSTACLE_SAFETY_MARGIN) = false

/-- Constant-zero random source, used to instantiate witnesses. -/
def srcZero : RandomSource := ⟨fun _ => 0, fun _ => 0⟩

/-- Constant-zero float environment, used to instantiate witnesses. -/
def envZero : FloatEnv := ⟨fun _ _ => 0, fun _ => 0, fun _ => 0, fun _ => 0⟩

/-!
Theorems.  Everything below is proof; the shallow embedding is complete above.
-/

/-- Safety of every non-fallback exit of the spawn retry loop: the accepted
position is at squared distance at least 300^2 from the player and inside no
inflated obstacle. -/
theorem spawnLoop_safe (src : RandomSource) (px py : ℚ) (obs : List Obstacle) :
    ∀ fuel tries k, (spawnLoop src px py obs fuel tries k).fallback = false →
      300 ^ 2 ≤ distSq (spawnLoop src px py obs fuel tries k).x
          (spawnLoop src px py obs fuel tries k).y px py ∧
      ∀ o ∈ obs,
        (o.rect.inflate (OBSTACLE_SAFETY_MARGIN * 2) (OBSTACLE_SAFETY_MARGIN * 2)).collidepointB
          (spawnLoop src px py obs fuel tries k).x
          (spawnLoop src px py obs fuel tries k).y = false := by
  intro fuel
  induction fuel with
  | zero => intro tries k h; simp [spawnLoop] at h
  | succ n ih =>
      intro tries k h
      simp only [spawnLoop] at h ⊢
      simp only [if_pos (show (0 : ℤ) < Int.ediv WORLD_W GRID_BIAS by decide),
        if_pos (show (0 : ℤ) < Int.ediv WORLD_H GRID_BIAS by decide)] at h ⊢
      split_ifs at h ⊢ with h1 h2 h3 h4
      · obtain ⟨ha, hb⟩ := ih (tries + 1) (k + 4) (by simpa using h)
        refine ⟨by simpa using ha, fun o ho => by simpa using hb o ho⟩
      · obtain ⟨ha, hb⟩ := ih (tries + 1) (k + 4) (by simpa using h)
        refine ⟨by simpa using ha, fun o ho => by simpa using hb o ho⟩
      · constructor
        · simp only [distLtB, decide_eq_true_eq] at h1
          push_neg at h1
          simpa using h1 (by norm_num)
        · intro o ho
          simp only [Bool.not_eq_true, List.any_eq_false] at h3
          simpa using h3 o ho

/-- C3: every mob returned by spawn_mob whose position was not produced by the
uniform-random fallback lies at (real) distance at least 300 from the player
(stated exactly via squared distance) and inside no obstacle rectangle inflated
by the safety margin. -/
theorem C3_spawn_mob_safe (src : RandomSource) (minute : ℤ) (player_x player_y : ℚ)
    (obstacles : List Obstacle) (k : ℕ)
    (hfb : (spawnLoop src player_x player_y obstacles 501 0 k).fallback = false) :
    300 ^ 2 ≤ distSq (spawn_mob src minute player_x player_y obstacles k).1.x
        (spawn_mob src minute player_x player_y obstacles k).1.y player_x player_y ∧
    ∀ o ∈ obstacles,
      (o.rect.inflate (OBSTACLE_SAFETY_MARGIN * 2) (OBSTACLE_SAFETY_MARGIN * 2)).collidepointB
        (spawn_mob src minute player_x player_y obstacles k).1.x
        (spawn_mob src minute player_x player_y obstacles k).1.y = false := by
  have h := spawnLoop_safe src player_x player_y obstacles 501 0 k hfb
  simpa [spawn_mob] using h

/-- Witness for C3 at a concrete input: the all-zero source accepts its first
sample, no fallback occurs, and the safety conclusion holds. -/
theorem C3_witness :
    (spawnLoop srcZero 1200 900 [] 501 0 0).fallback = false ∧
    (300 : ℚ) ^ 2 ≤ distSq (spawn_mob srcZero 0 1200 900 [] 0).1.x
        (spawn_mob srcZero 0 1200 900 [] 0).1.y 1200 900 := by
  have hfb : (spawnLoop srcZero 1200 900 [] 501 0 0).fallback = false := by
    rw [spawnLoop]
    norm_num [pyrandint, pyuniform, srcZero, clamp, distLtB, distSq,
      WORLD_W, WORLD_H, GRID_BIAS, max_def, min_def,
      show Int.ediv 2400 200 = 12 from by decide,
      show Int.ediv 1800 200 = 9 from by decide]
  exact ⟨hfb, (C3_spawn_mob_safe srcZero 0 1200 900 [] 0 hfb).1⟩

/-- Iteration count of the spawn retry loop is bounded by the fuel. -/
theorem spawnLoop_iters_le (src : RandomSource) (px py : ℚ) (obs : List Obstacle) :
    ∀ fuel tries k, (spawnLoop src px py obs fuel tries k).iters ≤ fuel := by
  intro fuel
  induction fuel with
  | zero => intro tries k; simp [spawnLoop]
  | succ n ih =>
      intro tries k
      simp only [spawnLoop]
      simp only [if_pos (show (0 : ℤ) < Int.ediv WORLD_W GRID_BIAS by decide),
        if_pos (show (0 : ℤ) < Int.ediv WORLD_H GRID_BIAS by decide)]
      split_ifs <;> (have hh := ih (tries + 1) (k + 4); simp; try omega)

/-- The fuel of the embedding is irrelevant on the reachable side of the tries
counter: with tries at most 500 (the python loop recurses only while
tries + 1 is at most 500) any two sufficient fuels give the same result, so the
bound on the loop comes from the shared tries counter, not from the fuel. -/
theorem spawnLoop_fuel_irrel (src : RandomSource) (px py : ℚ) (obs : List Obstacle) :
    ∀ f1 f2 tries k, tries ≤ 500 → 501 ≤ f1 + tries → 501 ≤ f2 + tries →
      spawnLoop src px py obs f1 tries k = spawnLoop src px py obs f2 tries k := by
  intro f1
  induction f1 with
  | zero => intro f2 tries k h0 h1 h2; omega
  | succ n ih =>
      intro f2 tries k h0 h1 h2
      cases f2 with
      | zero => omega
      | succ m =>
          simp only [spawnLoop]
          split_ifs <;>
            first
              | rfl
              | rw [ih m (tries + 1) (k + 4) (by omega) (by omega) (by omega)]

/-- C4: spawn_mob is total.  The retry loop starting from the shared tries
counter at 0 executes at most 501 iterations; the structural fuel of the
embedding is irrelevant beyond the 501 forced by the tries counter (any larger
fuel gives the same run); and the returned Mob always exists, carrying exactly
the loop position (spawn_mob is a total Lean function by construction). -/
theorem C4_spawn_total (src : RandomSource) (minute : ℤ) (player_x player_y : ℚ)
    (obstacles : List Obstacle) (k : ℕ) :
    (spawnLoop src player_x player_y obstacles 501 0 k).iters ≤ 501 ∧
    (∀ fuel, 501 ≤ fuel →
      spawnLoop src player_x player_y obstacles fuel 0 k =
        spawnLoop src player_x player_y obstacles 501 0 k) ∧
    (spawn_mob src minute player_x player_y obstacles k).1.x =
      (spawnLoop src player_x player_y obstacles 501 0 k).x ∧
    (spawn_mob src minute player_x player_y obstacles k).1.y =
      (spawnLoop src player_x player_y obstacles 501 0 k).y := by
  refine ⟨spawnLoop_iters_le src player_x player_y obstacles 501 0 k,
    fun fuel hf => spawnLoop_fuel_irrel src player_x player_y obstacles fuel 501 0 k
      (by omega) (by omega) (by omega),
    by simp [spawn_mob], by simp [spawn_mob]⟩

/-- Witness for C4 at a concrete input, discharging the inner fuel hypothesis at
fuel 600. -/
theorem C4_witness :
    (spawnLoop srcZero 0 0 [] 501 0 0).iters ≤ 501 ∧
    spawnLoop srcZero 0 0 [] 600 0 0 = spawnLoop srcZero 0 0 [] 501 0 0 :=
  ⟨(C4_spawn_total srcZero 0 0 0 [] 0).1,
    (C4_spawn_total srcZero 0 0 0 [] 0).2.1 600 (by norm_num)⟩

/-- Clamping stays inside the interval. -/
theorem clamp_mem_left {c a b : ℝ} (hab : a ≤ b) : a ≤ clamp c a b :=
  le_max_left a (min b c)

/-- Clamping stays inside the interval (right end). -/
theorem clamp_mem_right {c a b : ℝ} (hab : a ≤ b) : clamp c a b ≤ b :=
  max_le hab (min_le_left b c)

/-- Optimality of the clamped coordinate: among the points of [a, b] the clamp of
c is (weakly) closest to c, in the squared sense. -/
theorem clamp_sq_le (c a b p : ℝ) (hpa : a ≤ p) (hpb : p ≤ b) :
    (c - clamp c a b) ^ 2 ≤ (c - p) ^ 2 := by
  rcases le_total c a with h1 | h1
  · have hcb : c ≤ b := le_trans h1 (le_trans hpa hpb)
    have hmin : min b c = c := min_eq_right hcb
    have hmax : max a c = a := max_eq_left h1
    have hclamp : clamp c a b = a := by rw [clamp, hmin, hmax]
    rw [hclamp]
    nlinarith [mul_nonneg (sub_nonneg.2 hpa) (by linarith : (0 : ℝ) ≤ a + p - 2 * c)]
  · rcases le_total c b with h2 | h2
    · have hmin : min b c = c := min_eq_right h2
      have hmax : max a c = c := max_eq_right h1
      have hclamp : clamp c a b = c := by rw [clamp, hmin, hmax]
      rw [hclamp]
      simpa using sq_nonneg (c - p)
    · have hab : a ≤ b := le_trans hpa hpb
      have hmin : min b c = b := min_eq_left h2
      have hmax : max a b = b := max_eq_right hab
      have hclamp : clamp c a b = b := by rw [clamp, hmin, hmax]
      rw [hclamp]
      nlinarith [mul_nonneg (sub_nonneg.2 hpb) (by linarith : (0 : ℝ) ≤ 2 * c - b - p)]

/-- C7: circle_rect_collision cx cy r rect holds iff the minimum Euclidean
distance from (cx, cy) to the solid rectangle — the infimum of the distance set —
is at most r; stated for a nonnegative radius and a genuine (nonnegatively sized)
rectangle. -/
theorem C7_circle_rect_collision_iff (cx cy r : ℝ) (rect : Rect) (hr : 0 ≤ r)
    (hw : 0 ≤ rect.w) (hh : 0 ≤ rect.h) :
    circle_rect_collision cx cy r rect ↔ sInf (rectDistSet cx cy rect) ≤ r := by
  have hlr : (rect.left : ℝ) ≤ (rect.right : ℝ) := by
    have : rect.x ≤ rect.x + rect.w := by omega
    simp only [Rect.left, Rect.right]
    exact_mod_cast this
  have htb : (rect.top : ℝ) ≤ (rect.bottom : ℝ) := by
    have : rect.y ≤ rect.y + rect.h := by omega
    simp only [Rect.top, Rect.bottom]
    exact_mod_cast this
  set px0 := clamp cx (rect.left : ℝ) (rect.right : ℝ) with hpx0
  set py0 := clamp cy (rect.top : ℝ) (rect.bottom : ℝ) with hpy0
  have hmem : distance cx cy px0 py0 ∈ rectDistSet cx cy rect :=
    ⟨px0, py0, clamp_mem_left hlr, clamp_mem_right hlr, clamp_mem_left htb,
      clamp_mem_right htb, rfl⟩
  have hlb : ∀ d ∈ rectDistSet cx cy rect, distance cx cy px0 py0 ≤ d := by
    rintro d ⟨px, py, h1, h2, h3, h4, rfl⟩
    apply Real.sqrt_le_sqrt
    exact add_le_add (clamp_sq_le cx _ _ px h1 h2) (clamp_sq_le cy _ _ py h3 h4)
  have hinf : sInf (rectDistSet cx cy rect) = distance cx cy px0 py0 := by
    apply le_antisymm
    · exact csInf_le ⟨distance cx cy px0 py0, hlb⟩ hmem
    · exact le_csInf ⟨_, hmem⟩ hlb
  rw [circle_rect_collision, hinf]

/-- Witness for C7 at a concrete input: circle center (0,0) with radius 5 against
the rectangle with corner (3,4) and size 2 x 2 (closest point (3,4), distance 5). -/
theorem C7_witness :
    (0 : ℝ) ≤ 5 ∧ (0 : ℤ) ≤ (Rect.mk 3 4 2 2).w ∧ (0 : ℤ) ≤ (Rect.mk 3 4 2 2).h ∧
    (circle_rect_collision 0 0 5 (Rect.mk 3 4 2 2) ↔
      sInf (rectDistSet 0 0 (Rect.mk 3 4 2 2)) ≤ 5) :=
  ⟨by norm_num, by norm_num, by norm_num,
    C7_circle_rect_collision_iff 0 0 5 (Rect.mk 3 4 2 2) (by norm_num) (by norm_num)
      (by norm_num)⟩

/-- pygame colliderect is symmetric. -/
theorem colliderectB_comm (a b : Rect) : a.colliderectB b = b.colliderectB a := by
  simp only [Rect.colliderectB, decide_eq_decide]
  tauto

/-- The acceptance check of generate_obstacles (candidate inflated by twice the
margin against a bare accepted rect) is the claim predicate: the strict pygame
overlap depends only on the total inflation, so inflating one side by 16 equals
inflating each side by 8. -/
theorem overlapsInflatedB_eq (r : Rect) (o : Obstacle) :
    overlapsInflatedB r o =
      (o.rect.inflate OBSTACLE_SAFETY_MARGIN OBSTACLE_SAFETY_MARGIN).colliderectB
        (r.inflate OBSTACLE_SAFETY_MARGIN OBSTACLE_SAFETY_MARGIN) := by
  simp only [overlapsInflatedB, Rect.colliderectB, Rect.inflate, OBSTACLE_SAFETY_MARGIN,
    decide_eq_decide, show Int.ediv (8 * 2) 2 = 8 from by decide,
    show Int.ediv 8 2 = 4 from by decide]
  constructor <;> (intro h; omega)

/-- The pruning of an enumerated-and-filtered list is a sublist of the list
(generalized over the enumeration start). -/
theorem enumFrom_filter_map_sublist (p : ℕ × Obstacle → Bool) :
    ∀ (l : List Obstacle) (n : ℕ),
      List.Sublist (((List.enumFrom n l).filter p).map Prod.snd) l := by
  intro l
  induction l with
  | nil => intro n; simp
  | cons a t ih =>
      intro n
      simp only [List.enumFrom_cons, List.filter_cons]
      by_cases hp : p (n, a) = true
      · rw [if_pos hp]
        simpa using (ih (n + 1)).cons₂ a
      · rw [if_neg hp]
        exact (ih (n + 1)).cons a

/-- prune_clusters only removes obstacles, so it preserves every pairwise
property. -/
theorem prune_clusters_pairwise {R : Obstacle → Obstacle → Prop} {obs : List Obstacle}
    (h : obs.Pairwise R) : (prune_clusters obs).Pairwise R := by
  simp only [prune_clusters]
  split_ifs with h1
  · exact h
  · refine List.Pairwise.sublist ?_ h
    simpa [List.enum] using enumFrom_filter_map_sublist _ obs 0

/-- The first placement phase preserves pairwise inflated disjointness: every
accepted candidate is checked against every already accepted obstacle. -/
theorem phase1_pairwise (src : RandomSource) (count max_tries : ℕ) (center_area : Rect) :
    ∀ (cands : List (ℤ × ℤ)) (tries k : ℕ) (obs : List Obstacle),
      obs.Pairwise inflatedDisjoint →
      (phase1 src count max_tries center_area cands tries k obs).1.Pairwise inflatedDisjoint := by
  intro cands
  induction cands with
  | nil => intro tries k obs h; simpa [phase1] using h
  | cons c rest ih =>
      intro tries k obs h
      obtain ⟨cx, cy⟩ := c
      simp only [phase1]
      split_ifs with h1 h2 h3 h4
      · exact h
      · exact ih _ _ _ h
      · exact ih _ _ _ h
      · exact ih _ _ _ h
      · apply ih
        rw [List.pairwise_append]
        refine ⟨h, by simp, ?_⟩
        intro a ha b hb
        simp only [List.mem_singleton] at hb
        subst hb
        rw [Bool.not_eq_true, List.any_eq_false] at h3
        have hfa := h3 a ha
        rw [Bool.not_eq_true] at hfa
        rw [inflatedDisjoint]
        simpa [← overlapsInflatedB_eq] using hfa

/-- The second placement phase preserves pairwise inflated disjointness. -/
theorem phase2_pairwise (src : RandomSource) (count : ℕ) (center_area : Rect) :
    ∀ (fuel k : ℕ) (obs : List Obstacle), obs.Pairwise inflatedDisjoint →
      (phase2 src count center_area fuel k obs).1.Pairwise inflatedDisjoint := by
  intro fuel
  induction fuel with
  | zero => intro k obs h; simpa [phase2] using h
  | succ n ih =>
      intro k obs h
      simp only [phase2]
      split_ifs with h1 h2 h3 h4
      · exact h
      · exact ih _ _ h
      · exact ih _ _ h
      · exact ih _ _ h
      · apply ih
        rw [List.pairwise_append]
        refine ⟨h, by simp, ?_⟩
        intro a ha b hb
        simp only [List.mem_singleton] at hb
        subst hb
        rw [Bool.not_eq_true, List.any_eq_false] at h3
        have hfa := h3 a ha
        rw [Bool.not_eq_true] at hfa
        rw [inflatedDisjoint]
        simpa [← overlapsInflatedB_eq] using hfa

/-- C2: for every random source and target count, every pair of distinct
obstacles returned by generate_obstacles is disjoint after inflating each
rectangle by the safety margin OBSTACLE_SAFETY_MARGIN. -/
theorem C2_inflated_disjoint (src : RandomSource) (count : ℕ) :
    (generate_obstacles src count).Pairwise inflatedDisjoint := by
  simp only [generate_obstacles]
  apply prune_clusters_pairwise
  apply phase2_pairwise
  apply phase1_pairwise
  exact List.Pairwise.nil

/-- add_edge preserves the number of adjacency lists. -/
theorem add_edge_length (adj : List (List ℕ)) (i j : ℕ) :
    (add_edge adj i j).length = adj.length := by
  simp [add_edge]

/-- addPair preserves the number of adjacency lists. -/
theorem addPair_length (l : List Obstacle) (adj : List (List ℕ)) (p : ℕ × ℕ) :
    (addPair l adj p).length = adj.length := by
  rw [addPair]
  split_ifs <;> simp [add_edge_length]

/-- Folding addPair preserves the number of adjacency lists. -/
theorem foldl_addPair_length (l : List Obstacle) :
    ∀ (ps : List (ℕ × ℕ)) (adj : List (List ℕ)),
      (ps.foldl (addPair l) adj).length = adj.length := by
  intro ps
  induction ps with
  | nil => intro adj; rfl
  | cons q qs ih => intro adj; rw [List.foldl_cons, ih, addPair_length]

/-- build_adj_list allocates one adjacency list per obstacle. -/
theorem build_adj_list_length (l : List Obstacle) :
    (build_adj_list l).length = l.length := by
  rw [build_adj_list, foldl_addPair_length, List.length_replicate]

/-- Reading the freshly set adjacency list. -/
theorem adjAt_set_self (adj : List (List ℕ)) (i : ℕ) (v : List ℕ) (hi : i < adj.length) :
    adjAt (adj.set i v) i = v := by
  rw [adjAt, List.getD_eq_getElem _ _ (by simpa using hi)]
  simp

/-- Reading an untouched adjacency list. -/
theorem adjAt_set_ne (adj : List (List ℕ)) (i j : ℕ) (v : List ℕ) (hij : i ≠ j) :
    adjAt (adj.set i v) j = adjAt adj j := by
  by_cases hj : j < adj.length
  · rw [adjAt, adjAt, List.getD_eq_getElem _ _ (by simpa using hj),
      List.getD_eq_getElem _ _ hj]
    exact List.getElem_set_ne hij _
  · rw [adjAt, adjAt, List.getD_eq_default _ _ (by simpa using Nat.le_of_not_lt hj),
      List.getD_eq_default _ _ (Nat.le_of_not_lt hj)]

/-- Effect of add_edge on each adjacency list. -/
theorem adjAt_add_edge (adj : List (List ℕ)) (i j u : ℕ) (hi : i < adj.length)
    (hj : j < adj.length) (hij : i ≠ j) :
    adjAt (add_edge adj i j) u =
      if u = i then adjAt adj i ++ [j]
      else if u = j then adjAt adj j ++ [i]
      else adjAt adj u := by
  simp only [add_edge]
  split_ifs with h1 h2
  · subst h1
    rw [adjAt_set_ne _ _ _ _ (Ne.symm hij), adjAt_set_self _ _ _ hi]
  · subst h2
    rw [adjAt_set_self _ _ _ (by simpa using hj), adjAt_set_ne _ _ _ _ hij]
  · rw [adjAt_set_ne _ _ _ _ (fun hh => h2 hh.symm), adjAt_set_ne _ _ _ _ (fun hh => h1 hh.symm)]

/-- Membership after add_edge. -/
theorem mem_adjAt_add_edge (adj : List (List ℕ)) (i j u v : ℕ) (hi : i < adj.length)
    (hj : j < adj.length) (hij : i ≠ j) :
    (v ∈ adjAt (add_edge adj i j) u ↔
      v ∈ adjAt adj u ∨ (u = i ∧ v = j) ∨ (u = j ∧ v = i)) := by
  rw [adjAt_add_edge adj i j u hi hj hij]
  split_ifs with h1 h2
  · subst h1
    simp only [List.mem_append, List.mem_singleton]
    tauto
  · subst h2
    simp only [List.mem_append, List.mem_singleton]
    tauto
  · tauto

/-- Membership after folding addPair over a list of in-range pairs. -/
theorem foldl_addPair_mem (l : List Obstacle) :
    ∀ (ps : List (ℕ × ℕ)) (adj : List (List ℕ)), adj.length = l.length →
      (∀ q ∈ ps, q.1 < l.length ∧ q.2 < l.length ∧ q.1 ≠ q.2) →
      ∀ u v, (v ∈ adjAt (ps.foldl (addPair l) adj) u ↔
        v ∈ adjAt adj u ∨ ∃ q ∈ ps,
          nearB (l.getD q.1 default).rect (l.getD q.2 default).rect = true ∧
            ((u = q.1 ∧ v = q.2) ∨ (u = q.2 ∧ v = q.1))) := by
  intro ps
  induction ps with
  | nil => intro adj hlen hq u v; simp
  | cons q qs ih =>
      intro adj hlen hq u v
      rw [List.foldl_cons,
        ih (addPair l adj q) (by rw [addPair_length]; exact hlen)
          (fun r hr => hq r (List.mem_cons_of_mem _ hr)) u v]
      obtain ⟨hq1, hq2, hq3⟩ := hq q (List.mem_cons_self _ _)
      rw [addPair]
      split_ifs with hnear
      · rw [mem_adjAt_add_edge adj q.1 q.2 u v (by rw [hlen]; exact hq1)
          (by rw [hlen]; exact hq2) hq3]
        simp only [List.mem_cons]
        constructor
        · rintro ((hv | hv | hv) | ⟨r, hr, hrn, hrc⟩)
          · exact Or.inl hv
          · exact Or.inr ⟨q, Or.inl rfl, hnear, Or.inl hv⟩
          · exact Or.inr ⟨q, Or.inl rfl, hnear, Or.inr hv⟩
          · exact Or.inr ⟨r, Or.inr hr, hrn, hrc⟩
        · rintro (hv | ⟨r, (hr | hr), hrn, hrc⟩)
          · exact Or.inl (Or.inl hv)
          · subst hr
            rcases hrc with hv | hv
            · exact Or.inl (Or.inr (Or.inl hv))
            · exact Or.inl (Or.inr (Or.inr hv))
          · exact Or.inr ⟨r, hr, hrn, hrc⟩
      · simp only [List.mem_cons]
        constructor
        · rintro (hv | ⟨r, hr, hrn, hrc⟩)
          · exact Or.inl hv
          · exact Or.inr ⟨r, Or.inr hr, hrn, hrc⟩
        · rintro (hv | ⟨r, (hr | hr), hrn, hrc⟩)
          · exact Or.inl hv
          · subst hr
            exact absurd hrn (by simpa using hnear)
          · exact Or.inr ⟨r, hr, hrn, hrc⟩

/-- The flattened pair list contains exactly the pairs i < j < n. -/
theorem mem_allPairs (n : ℕ) (q : ℕ × ℕ) : q ∈ allPairs n ↔ q.1 < q.2 ∧ q.2 < n := by
  obtain ⟨i, j⟩ := q
  simp only [allPairs, List.mem_flatMap, List.mem_map, List.mem_range, List.mem_range'_1]
  constructor
  · rintro ⟨a, ha, b, hb, hab⟩
    simp only [Prod.mk.injEq] at hab
    obtain ⟨rfl, rfl⟩ := hab
    constructor <;> omega
  · rintro ⟨h1, h2⟩
    exact ⟨i, by omega, j, by omega, rfl⟩

/-- Adjacency lists start empty. -/
theorem adjAt_replicate_nil (n u : ℕ) : adjAt (List.replicate n ([] : List ℕ)) u = [] := by
  rw [adjAt]
  by_cases h : u < n
  · rw [List.getD_eq_getElem _ _ (by simpa using h)]
    simp
  · rw [List.getD_eq_default _ _ (by simpa using Nat.le_of_not_lt h)]

/-- The nearby test is symmetric. -/
theorem nearB_comm (a b : Rect) : nearB a b = nearB b a := by
  simp only [nearB, decide_eq_decide]
  have h1 : (a.centerx - b.centerx) ^ 2 = (b.centerx - a.centerx) ^ 2 := by ring
  have h2 : (a.centery - b.centery) ^ 2 = (b.centery - a.centery) ^ 2 := by ring
  rw [h1, h2]

/-- Characterization of build_adj_list: membership of v in adj[u] says exactly
that u and v are distinct in-range indices with nearby centers. -/
theorem build_adj_mem (l : List Obstacle) (u v : ℕ) :
    v ∈ adjAt (build_adj_list l) u ↔
      u < l.length ∧ v < l.length ∧ u ≠ v ∧
        nearB (l.getD u default).rect (l.getD v default).rect = true := by
  rw [build_adj_list,
    foldl_addPair_mem l (allPairs l.length) (List.replicate l.length [])
      (by simp) (fun q hq => by
        rw [mem_allPairs] at hq
        exact ⟨lt_trans hq.1 hq.2, hq.2, Nat.ne_of_lt hq.1⟩) u v]
  rw [adjAt_replicate_nil]
  simp only [List.not_mem_nil, false_or]
  constructor
  · rintro ⟨q, hq, hqn, (⟨rfl, rfl⟩ | ⟨rfl, rfl⟩)⟩
    · rw [mem_allPairs] at hq
      exact ⟨lt_trans hq.1 hq.2, hq.2, Nat.ne_of_lt hq.1, hqn⟩
    · rw [mem_allPairs] at hq
      refine ⟨hq.2, lt_trans hq.1 hq.2, (Nat.ne_of_lt hq.1).symm, ?_⟩
      rw [nearB_comm]
      exact hqn
  · rintro ⟨hu, hv, huv, hn⟩
    rcases Nat.lt_or_ge u v with hlt | hge
    · exact ⟨(u, v), (mem_allPairs _ _).2 ⟨hlt, hv⟩, hn, Or.inl ⟨rfl, rfl⟩⟩
    · have hlt : v < u := by omega
      refine ⟨(v, u), (mem_allPairs _ _).2 ⟨hlt, hu⟩, ?_, Or.inr ⟨rfl, rfl⟩⟩
      rw [nearB_comm]
      exact hn

/-- pushNbrs bookkeeping: each push inserts a fresh vertex below n, so the count
of unvisited range vertices plus the stack length is invariant. -/
theorem pushNbrs_measure (n : ℕ) :
    ∀ (vs : List ℕ) (visited : Finset ℕ) (stack : List ℕ),
      (Finset.range n \ (pushNbrs n vs visited stack).1).card +
        (pushNbrs n vs visited stack).2.length =
      (Finset.range n \ visited).card + stack.length := by
  intro vs
  induction vs with
  | nil => intro visited stack; rfl
  | cons v vs ih =>
      intro visited stack
      rw [pushNbrs]
      split_ifs with h
      · rw [ih (insert v visited) (v :: stack)]
        have hv : v ∈ Finset.range n \ visited := by
          simp only [Finset.mem_sdiff, Finset.mem_range]
          exact ⟨h.1, h.2⟩
        have he : Finset.range n \ insert v visited = (Finset.range n \ visited).erase v := by
          ext x
          simp only [Finset.mem_sdiff, Finset.mem_erase, Finset.mem_range, Finset.mem_insert]
          tauto
        rw [he, Finset.card_erase_of_mem hv]
        have hpos : 0 < (Finset.range n \ visited).card := Finset.card_pos.2 ⟨v, hv⟩
        simp only [List.length_cons]
        omega
      · exact ih visited stack

/-- pushNbrs only grows the visited set. -/
theorem pushNbrs_visited_subset (n : ℕ) :
    ∀ (vs : List ℕ) (visited : Finset ℕ) (stack : List ℕ),
      visited ⊆ (pushNbrs n vs visited stack).1 := by
  intro vs
  induction vs with
  | nil => intro visited stack; exact fun x hx => hx
  | cons v vs ih =>
      intro visited stack
      rw [pushNbrs]
      split_ifs with h
      · exact fun x hx => ih (insert v visited) (v :: stack) (Finset.mem_insert_of_mem hx)
      · exact ih visited stack

/-- Membership in the visited set after pushNbrs. -/
theorem pushNbrs_mem_visited (n : ℕ) :
    ∀ (vs : List ℕ) (visited : Finset ℕ) (stack : List ℕ) (x : ℕ),
      (x ∈ (pushNbrs n vs visited stack).1 ↔ x ∈ visited ∨ (x ∈ vs ∧ x < n)) := by
  intro vs
  induction vs with
  | nil => intro visited stack x; simp [pushNbrs]
  | cons v vs ih =>
      intro visited stack x
      rw [pushNbrs]
      split_ifs with h
      · rw [ih (insert v visited) (v :: stack) x]
        simp only [Finset.mem_insert, List.mem_cons]
        constructor
        · rintro ((rfl | hx) | ⟨hx, hn⟩)
          · exact Or.inr ⟨Or.inl rfl, h.1⟩
          · exact Or.inl hx
          · exact Or.inr ⟨Or.inr hx, hn⟩
        · rintro (hx | ⟨(rfl | hx), hn⟩)
          · exact Or.inl (Or.inr hx)
          · exact Or.inl (Or.inl rfl)
          · exact Or.inr ⟨hx, hn⟩
      · rw [ih visited stack x]
        simp only [List.mem_cons]
        push_neg at h
        constructor
        · rintro (hx | ⟨hx, hn⟩)
          · exact Or.inl hx
          · exact Or.inr ⟨Or.inr hx, hn⟩
        · rintro (hx | ⟨(rfl | hx), hn⟩)
          · exact Or.inl hx
          · exact Or.inl (h hn)
          · exact Or.inr ⟨hx, hn⟩

/-- Membership in the stack after pushNbrs. -/
theorem pushNbrs_mem_stack (n : ℕ) :
    ∀ (vs : List ℕ) (visited : Finset ℕ) (stack : List ℕ) (x : ℕ),
      (x ∈ (pushNbrs n vs visited stack).2 ↔
        x ∈ stack ∨ (x ∈ vs ∧ x < n ∧ x ∉ visited)) := by
  intro vs
  induction vs with
  | nil => intro visited stack x; simp [pushNbrs]
  | cons v vs ih =>
      intro visited stack x
      rw [pushNbrs]
      split_ifs with h
      · rw [ih (insert v visited) (v :: stack) x]
        simp only [List.mem_cons, Finset.mem_insert]
        constructor
        · rintro ((rfl | hx) | ⟨hx, hn, hv⟩)
          · exact Or.inr ⟨Or.inl rfl, h.1, h.2⟩
          · exact Or.inl hx
          · exact Or.inr ⟨Or.inr hx, hn, fun hc => hv (Or.inr hc)⟩
        · rintro (hx | ⟨(rfl | hx), hn, hv⟩)
          · exact Or.inl (Or.inr hx)
          · exact Or.inl (Or.inl rfl)
          · by_cases hxv : x = v
            · exact Or.inl (Or.inl hxv)
            · exact Or.inr ⟨hx, hn, fun hc => by
                rcases hc with hc1 | hc1
                · exact hxv hc1
                · exact hv hc1⟩
      · rw [ih visited stack x]
        simp only [List.mem_cons]
        push_neg at h
        constructor
        · rintro (hx | ⟨hx, hn, hv⟩)
          · exact Or.inl hx
          · exact Or.inr ⟨Or.inr hx, hn, hv⟩
        · rintro (hx | ⟨(rfl | hx), hn, hv⟩)
          · exact Or.inl hx
          · exact absurd (h hn) hv
          · exact Or.inr ⟨hx, hn, hv⟩

/-- pushNbrs keeps the stack duplicate-free and inside the visited set, provided
it starts that way. -/
theorem pushNbrs_stack_nodup (n : ℕ) :
    ∀ (vs : List ℕ) (visited : Finset ℕ) (stack : List ℕ), stack.Nodup →
      (∀ x ∈ stack, x ∈ visited) →
      ((pushNbrs n vs visited stack).2.Nodup ∧
        ∀ x ∈ (pushNbrs n vs visited stack).2, x ∈ (pushNbrs n vs visited stack).1) := by
  intro vs
  induction vs with
  | nil => intro visited stack h1 h2; exact ⟨h1, h2⟩
  | cons v vs ih =>
      intro visited stack h1 h2
      rw [pushNbrs]
      split_ifs with h
      · refine ih (insert v visited) (v :: stack) ?_ ?_
        · exact List.nodup_cons.2 ⟨fun hc => h.2 (h2 v hc), h1⟩
        · intro x hx
          rcases List.mem_cons.1 hx with rfl | hx
          · exact Finset.mem_insert_self x visited
          · exact Finset.mem_insert_of_mem (h2 x hx)
      · exact ih visited stack h1 h2

/-- Full specification of one depth-first round: starting from a stack of
already visited vertices, a component prefix, and a prior adjacency-closed
visited region P, the round ends with visited = P plus the produced component,
the component disjoint from P, duplicate-free, adjacency-closed into the final
visited set, containing the initial component, and with the visited set grown. -/
theorem dfsRound_spec (adj : List (List ℕ))
    (hsym : ∀ u v, v ∈ adjAt adj u → u ∈ adjAt adj v)
    (hadj : ∀ u v, v ∈ adjAt adj u → v < adj.length)
    (P : Finset ℕ) (hP : ∀ u ∈ P, ∀ v, v ∈ adjAt adj u → v ∈ P) :
    ∀ (fuel : ℕ) (stack : List ℕ) (visited : Finset ℕ) (comp : List ℕ),
      (Finset.range adj.length \ visited).card + stack.length ≤ fuel →
      (∀ x, x ∈ visited ↔ x ∈ P ∨ x ∈ comp ∨ x ∈ stack) →
      (∀ u ∈ stack, u ∉ P) →
      (∀ u ∈ comp, u ∉ P) →
      (∀ u ∈ comp, ∀ v, v ∈ adjAt adj u → v ∈ visited) →
      (comp ++ stack).Nodup →
      ((∀ x, x ∈ (dfsRound adj fuel stack visited comp).2 ↔
          x ∈ P ∨ x ∈ (dfsRound adj fuel stack visited comp).1) ∧
        (∀ u ∈ (dfsRound adj fuel stack visited comp).1, u ∉ P) ∧
        (∀ u ∈ (dfsRound adj fuel stack visited comp).1, ∀ v,
          v ∈ adjAt adj u → v ∈ (dfsRound adj fuel stack visited comp).2) ∧
        (dfsRound adj fuel stack visited comp).1.Nodup ∧
        (∀ u ∈ comp, u ∈ (dfsRound adj fuel stack visited comp).1) ∧
        (∀ x ∈ visited, x ∈ (dfsRound adj fuel stack visited comp).2)) := by
  intro fuel
  induction fuel with
  | zero =>
      intro stack visited comp hfuel hv hsP hcP hcC hnc
      have hs : stack = [] := List.length_eq_zero.1 (by omega)
      subst hs
      rw [dfsRound]
      refine ⟨?_, hcP, hcC, ?_, fun w hw => hw, fun x hx => hx⟩
      · intro x
        rw [hv x]
        simp
      · simpa using hnc
  | succ n ih =>
      intro stack visited comp hfuel hv hsP hcP hcC hnc
      rcases stack with _ | ⟨u, rest⟩
      · rw [dfsRound]
        refine ⟨?_, hcP, hcC, ?_, fun w hw => hw, fun x hx => hx⟩
        · intro x
          rw [hv x]
          simp
        · simpa using hnc
      · simp only [dfsRound]
        have hu_notP : u ∉ P := hsP u (List.mem_cons_self u rest)
        have hrest_sub : ∀ x ∈ rest, x ∈ visited := fun x hx =>
          (hv x).2 (Or.inr (Or.inr (List.mem_cons_of_mem u hx)))
        obtain ⟨hcompnd, hconsnd, hdisj⟩ := List.nodup_append.1 hnc
        have hu_notin_comp : u ∉ comp := fun hc => hdisj hc (List.mem_cons_self u rest)
        have hu_notin_rest : u ∉ rest := (List.nodup_cons.1 hconsnd).1
        have hrestnd : rest.Nodup := (List.nodup_cons.1 hconsnd).2
        have hu_vis : u ∈ visited := (hv u).2 (Or.inr (Or.inr (List.mem_cons_self u rest)))
        have hm := pushNbrs_measure adj.length (adjAt adj u) visited rest
        simp only [List.length_cons] at hfuel
        obtain ⟨hs2nd, hs2sub⟩ :=
          pushNbrs_stack_nodup adj.length (adjAt adj u) visited rest hrestnd hrest_sub
        have hfuel' : (Finset.range adj.length \
            (pushNbrs adj.length (adjAt adj u) visited rest).1).card +
            (pushNbrs adj.length (adjAt adj u) visited rest).2.length ≤ n := by omega
        have hv' : ∀ x, x ∈ (pushNbrs adj.length (adjAt adj u) visited rest).1 ↔
            x ∈ P ∨ x ∈ comp ++ [u] ∨
              x ∈ (pushNbrs adj.length (adjAt adj u) visited rest).2 := by
          intro x
          rw [pushNbrs_mem_visited, pushNbrs_mem_stack]
          have hvx := hv x
          simp only [List.mem_cons] at hvx
          simp only [List.mem_append, List.mem_singleton]
          tauto
        have hsP' : ∀ x ∈ (pushNbrs adj.length (adjAt adj u) visited rest).2, x ∉ P := by
          intro x hx
          rw [pushNbrs_mem_stack] at hx
          rcases hx with hx | ⟨hxA, _, _⟩
          · exact hsP x (List.mem_cons_of_mem u hx)
          · intro hxP
            exact hu_notP (hP x hxP u (hsym u x hxA))
        have hcP' : ∀ x ∈ comp ++ [u], x ∉ P := by
          intro x hx
          rcases List.mem_append.1 hx with hx | hx
          · exact hcP x hx
          · rw [List.mem_singleton] at hx
            subst hx
            exact hu_notP
        have hcC' : ∀ w ∈ comp ++ [u], ∀ v, v ∈ adjAt adj w →
            v ∈ (pushNbrs adj.length (adjAt adj u) visited rest).1 := by
          intro w hw v hvv
          rcases List.mem_append.1 hw with hw | hw
          · exact pushNbrs_visited_subset _ _ _ _ (hcC w hw v hvv)
          · rw [List.mem_singleton] at hw
            subst hw
            rw [pushNbrs_mem_visited]
            exact Or.inr ⟨hvv, hadj w v hvv⟩
        have hnc'' : (comp ++ [u] ++ (pushNbrs adj.length (adjAt adj u) visited rest).2).Nodup := by
          rw [List.nodup_append]
          refine ⟨?_, hs2nd, ?_⟩
          · rw [List.nodup_append]
            refine ⟨hcompnd, List.nodup_singleton u, ?_⟩
            intro a ha hb
            rw [List.mem_singleton] at hb
            subst hb
            exact hu_notin_comp ha
          · intro a ha hb
            rw [pushNbrs_mem_stack] at hb
            rcases List.mem_append.1 ha with ha1 | ha1
            · rcases hb with hb1 | ⟨_, _, hb3⟩
              · exact hdisj ha1 (List.mem_cons_of_mem u hb1)
              · exact hb3 ((hv a).2 (Or.inr (Or.inl ha1)))
            · rw [List.mem_singleton] at ha1
              subst ha1
              rcases hb with hb1 | ⟨_, _, hb3⟩
              · exact hu_notin_rest hb1
              · exact hb3 hu_vis
        obtain ⟨c1, c2, c3, c4, c5, c6⟩ := ih _ _ _ hfuel' hv' hsP' hcP' hcC' hnc''
        refine ⟨c1, c2, c3, c4, ?_, ?_⟩
        · intro w hw
          exact c5 w (List.mem_append.2 (Or.inl hw))
        · intro x hx
          exact c6 x (pushNbrs_visited_subset _ _ _ _ hx)

/-- Specification of the outer loop of connected_components: the collected
components are adjacency-closed and duplicate-free, every index of the todo list
ends up in some component, and already collected components persist.  The
invariants say that visited is exactly the union of the collected components. -/
theorem ccLoop_spec (adj : List (List ℕ))
    (hsym : ∀ u v, v ∈ adjAt adj u → u ∈ adjAt adj v)
    (hadj : ∀ u v, v ∈ adjAt adj u → v < adj.length) :
    ∀ (todo : List ℕ) (visited : Finset ℕ) (comps : List (List ℕ)),
      (∀ x, x ∈ visited ↔ ∃ c, c ∈ comps ∧ x ∈ c) →
      (∀ c ∈ comps, ∀ u ∈ c, ∀ v, v ∈ adjAt adj u → v ∈ c) →
      (∀ c ∈ comps, c.Nodup) →
      ((∀ c ∈ ccLoop adj todo visited comps, ∀ u ∈ c, ∀ v, v ∈ adjAt adj u → v ∈ c) ∧
        (∀ c ∈ ccLoop adj todo visited comps, c.Nodup) ∧
        (∀ i ∈ todo, ∃ c, c ∈ ccLoop adj todo visited comps ∧ i ∈ c) ∧
        (∀ c ∈ comps, c ∈ ccLoop adj todo visited comps)) := by
  intro todo
  induction todo with
  | nil =>
      intro visited comps hv hclosed hnd
      rw [ccLoop]
      exact ⟨hclosed, hnd, by simp, fun c hc => hc⟩
  | cons i todo ih =>
      intro visited comps hv hclosed hnd
      simp only [ccLoop]
      split_ifs with hvis
      · obtain ⟨d1, d2, d3, d4⟩ := ih visited comps hv hclosed hnd
        refine ⟨d1, d2, ?_, d4⟩
        intro j hj
        rcases List.mem_cons.1 hj with rfl | hj2
        · obtain ⟨c, hc, hic⟩ := (hv j).1 hvis
          exact ⟨c, d4 c hc, hic⟩
        · exact d3 j hj2
      · have hP : ∀ u ∈ visited, ∀ v, v ∈ adjAt adj u → v ∈ visited := by
          intro w hw v hvv
          obtain ⟨c, hc, hwc⟩ := (hv w).1 hw
          exact (hv v).2 ⟨c, hc, hclosed c hc w hwc v hvv⟩
        have hcard : (Finset.range adj.length \ insert i visited).card +
            ([i] : List ℕ).length ≤ adj.length + 1 := by
          have h1 : (Finset.range adj.length \ insert i visited).card ≤ adj.length := by
            calc (Finset.range adj.length \ insert i visited).card
                ≤ (Finset.range adj.length).card := Finset.card_le_card Finset.sdiff_subset
              _ = adj.length := Finset.card_range _
          simp only [List.length_singleton]
          omega
        obtain ⟨c1, c2, c3, c4, c5, c6⟩ := dfsRound_spec adj hsym hadj visited hP
          (adj.length + 1) [i] (insert i visited) [] hcard
          (by
            intro x
            simp only [Finset.mem_insert, List.mem_singleton, List.not_mem_nil, false_or]
            exact or_comm)
          (by
            intro w hw
            rw [List.mem_singleton] at hw
            subst hw
            exact hvis)
          (by intro w hw; simp at hw)
          (by intro w hw v hvv; simp at hw)
          (by simp)
        have hclosed_new : ∀ u ∈ (dfsRound adj (adj.length + 1) [i] (insert i visited) []).1,
            ∀ v, v ∈ adjAt adj u →
              v ∈ (dfsRound adj (adj.length + 1) [i] (insert i visited) []).1 := by
          intro w hw v hvv
          rcases (c1 v).1 (c3 w hw v hvv) with hvP | hvc
          · exact absurd (hP v hvP w (hsym w v hvv)) (c2 w hw)
          · exact hvc
        obtain ⟨e1, e2, e3, e4⟩ := ih (dfsRound adj (adj.length + 1) [i] (insert i visited) []).2
          (comps ++ [(dfsRound adj (adj.length + 1) [i] (insert i visited) []).1])
          (by
            intro x
            rw [c1 x]
            constructor
            · rintro (hx | hx)
              · obtain ⟨c, hc, hxc⟩ := (hv x).1 hx
                exact ⟨c, List.mem_append.2 (Or.inl hc), hxc⟩
              · exact ⟨_, List.mem_append.2 (Or.inr (List.mem_singleton.2 rfl)), hx⟩
            · rintro ⟨c, hc, hxc⟩
              rcases List.mem_append.1 hc with hc1 | hc1
              · exact Or.inl ((hv x).2 ⟨c, hc1, hxc⟩)
              · rw [List.mem_singleton] at hc1
                subst hc1
                exact Or.inr hxc)
          (by
            intro c hc
            rcases List.mem_append.1 hc with hc1 | hc1
            · exact hclosed c hc1
            · rw [List.mem_singleton] at hc1
              subst hc1
              exact hclosed_new)
          (by
            intro c hc
            rcases List.mem_append.1 hc with hc1 | hc1
            · exact hnd c hc1
            · rw [List.mem_singleton] at hc1
              subst hc1
              exact c4)
        refine ⟨e1, e2, ?_, ?_⟩
        · intro j hj
          rcases List.mem_cons.1 hj with rfl | hj2
          · have hjv : j ∈ (dfsRound adj (adj.length + 1) [j] (insert j visited) []).2 :=
              c6 j (Finset.mem_insert_self j visited)
            rcases (c1 j).1 hjv with hjP | hjc
            · exact absurd hjP hvis
            · exact ⟨_, e4 _ (List.mem_append.2 (Or.inr (List.mem_singleton.2 rfl))), hjc⟩
          · exact e3 j hj2
        · intro c hc
          exact e4 c (List.mem_append.2 (Or.inl hc))

/-- Properties of connected_components: each component is adjacency-closed and
duplicate-free, and every index below the length belongs to some component. -/
theorem connected_components_spec (adj : List (List ℕ))
    (hsym : ∀ u v, v ∈ adjAt adj u → u ∈ adjAt adj v)
    (hadj : ∀ u v, v ∈ adjAt adj u → v < adj.length) :
    (∀ c ∈ connected_components adj, ∀ u ∈ c, ∀ v, v ∈ adjAt adj u → v ∈ c) ∧
    (∀ c ∈ connected_components adj, c.Nodup) ∧
    (∀ i, i < adj.length → ∃ c, c ∈ connected_components adj ∧ i ∈ c) := by
  obtain ⟨e1, e2, e3, _⟩ := ccLoop_spec adj hsym hadj (List.range adj.length) ∅ []
    (by simp) (by simp) (by simp)
  exact ⟨e1, e2, fun i hi => e3 i (List.mem_range.2 hi)⟩

/-- Stable descending insertion permutes. -/
theorem insertDescBy_perm (key : ℕ → ℕ) (x : ℕ) :
    ∀ l : List ℕ, (insertDescBy key x l).Perm (x :: l) := by
  intro l
  induction l with
  | nil => simp [insertDescBy]
  | cons y ys ih =>
      rw [insertDescBy]
      split_ifs with h
      · exact (ih.cons y).trans (List.Perm.swap x y ys)
      · exact List.Perm.refl _

/-- Folded insertion sort permutes (generalized accumulator). -/
theorem sortDescBy_perm_aux (key : ℕ → ℕ) :
    ∀ (l acc : List ℕ),
      (l.foldl (fun acc x => insertDescBy key x acc) acc).Perm (acc ++ l) := by
  intro l
  induction l with
  | nil => intro acc; simp
  | cons x xs ih =>
      intro acc
      rw [List.foldl_cons]
      refine (ih (insertDescBy key x acc)).trans ?_
      refine (List.Perm.append_right xs (insertDescBy_perm key x acc)).trans ?_
      exact List.perm_middle.symm

/-- The stable descending sort is a permutation of its input. -/
theorem sortDescBy_perm (key : ℕ → ℕ) (l : List ℕ) : (sortDescBy key l).Perm l := by
  simpa using sortDescBy_perm_aux key l []

/-- One removal step only adds indices. -/
theorem removeStep_sub (adj : List (List ℕ)) (acc : List ℕ) (comp : List ℕ) :
    ∀ x ∈ acc, x ∈ removeStep adj acc comp := by
  intro x hx
  rw [removeStep]
  split_ifs
  · exact List.mem_append.2 (Or.inl hx)
  · exact hx

/-- The removal fold only adds indices. -/
theorem foldl_removeStep_mono (adj : List (List ℕ)) :
    ∀ (comps : List (List ℕ)) (acc : List ℕ), ∀ x ∈ acc,
      x ∈ comps.foldl (removeStep adj) acc := by
  intro comps
  induction comps with
  | nil => intro acc x hx; exact hx
  | cons c cs ih =>
      intro acc x hx
      rw [List.foldl_cons]
      exact ih _ x (removeStep_sub adj acc c x hx)

/-- Every index taken from an oversized component is in the removal fold. -/
theorem take_sub_removalList (adj : List (List ℕ)) (c : List ℕ)
    (hbig : MAX_NEARBY_OBSTACLES < c.length) :
    ∀ (comps : List (List ℕ)), c ∈ comps → ∀ (acc : List ℕ),
      ∀ x ∈ (sortDescBy (fun idx => (adjAt adj idx).length) c).take
          (c.length - MAX_NEARBY_OBSTACLES),
        x ∈ comps.foldl (removeStep adj) acc := by
  intro comps
  induction comps with
  | nil => intro h; simp at h
  | cons c0 cs ih =>
      intro hc acc x hx
      rw [List.foldl_cons]
      rcases List.mem_cons.1 hc with rfl | hc2
      · apply foldl_removeStep_mono
        rw [removeStep, if_pos hbig]
        exact List.mem_append.2 (Or.inr hx)
      · exact ih hc2 (removeStep adj acc c0) x hx

/-- Counting bound: a duplicate-free collected component cannot keep three
distinct members outside the removal list (after removal at most
MAX_NEARBY_OBSTACLES = 2 members of each component survive). -/
theorem retained_bound (adj : List (List ℕ)) (comps : List (List ℕ)) (c : List ℕ)
    (hc : c ∈ comps) (hnd : c.Nodup) {a b d : ℕ}
    (hab : a ≠ b) (had : a ≠ d) (hbd : b ≠ d)
    (ha : a ∈ c) (hb : b ∈ c) (hd : d ∈ c)
    (hra : a ∉ removalList adj comps) (hrb : b ∉ removalList adj comps)
    (hrd : d ∉ removalList adj comps) : False := by
  have h3 : ({a, b, d} : Finset ℕ).card = 3 := by
    rw [Finset.card_insert_of_not_mem (by simp [hab, had]),
      Finset.card_insert_of_not_mem (by simp [hbd]), Finset.card_singleton]
  have hM : MAX_NEARBY_OBSTACLES = 2 := rfl
  by_cases hbig : MAX_NEARBY_OBSTACLES < c.length
  · have hTsub : ∀ x ∈ (sortDescBy (fun idx => (adjAt adj idx).length) c).take
        (c.length - MAX_NEARBY_OBSTACLES), x ∈ removalList adj comps := by
      intro x hx
      rw [removalList]
      exact take_sub_removalList adj c hbig comps hc [] x hx
    set T := (sortDescBy (fun idx => (adjAt adj idx).length) c).take
      (c.length - MAX_NEARBY_OBSTACLES) with hT
    have hmem : ∀ x, x ∈ c → x ∉ removalList adj comps →
        x ∈ c.toFinset \ T.toFinset := by
      intro x hx hrx
      rw [Finset.mem_sdiff, List.mem_toFinset, List.mem_toFinset]
      exact ⟨hx, fun hTx => hrx (hTsub x hTx)⟩
    have hcard3 : ({a, b, d} : Finset ℕ) ⊆ c.toFinset \ T.toFinset := by
      intro x hx
      rcases Finset.mem_insert.1 hx with rfl | hx
      · exact hmem x ha hra
      · rcases Finset.mem_insert.1 hx with rfl | hx
        · exact hmem x hb hrb
        · rw [Finset.mem_singleton] at hx
          subst hx
          exact hmem x hd hrd
    have hsnd : (sortDescBy (fun idx => (adjAt adj idx).length) c).Nodup :=
      (sortDescBy_perm _ c).nodup_iff.2 hnd
    have hTnd : T.Nodup := List.Nodup.sublist (List.take_sublist _ _) hsnd
    have hTc : ∀ x ∈ T, x ∈ c := fun x hx =>
      (sortDescBy_perm _ c).mem_iff.1 ((List.take_sublist _ _).subset hx)
    have hTlen : T.length = c.length - MAX_NEARBY_OBSTACLES := by
      rw [hT, List.length_take, (sortDescBy_perm _ c).length_eq,
        min_eq_left (Nat.sub_le _ _)]
    have hTfin : T.toFinset.card = T.length := List.toFinset_card_of_nodup hTnd
    have hcfin : c.toFinset.card = c.length := List.toFinset_card_of_nodup hnd
    have hTsubc : T.toFinset ⊆ c.toFinset := fun x hx =>
      List.mem_toFinset.2 (hTc x (List.mem_toFinset.1 hx))
    have hdiff : (c.toFinset \ T.toFinset).card = c.toFinset.card - T.toFinset.card :=
      Finset.card_sdiff hTsubc
    have hle := Finset.card_le_card hcard3
    rw [h3, hdiff, hTfin, hcfin, hTlen] at hle
    omega
  · push_neg at hbig
    have hcard3 : ({a, b, d} : Finset ℕ) ⊆ c.toFinset := by
      intro x hx
      rcases Finset.mem_insert.1 hx with rfl | hx
      · exact List.mem_toFinset.2 ha
      · rcases Finset.mem_insert.1 hx with rfl | hx
        · exact List.mem_toFinset.2 hb
        · rw [Finset.mem_singleton] at hx
          subst hx
          exact List.mem_toFinset.2 hd
    have hle := Finset.card_le_card hcard3
    rw [h3, List.toFinset_card_of_nodup hnd] at hle
    omega

/-- Selection description of the filtered enumeration: the surviving elements
are exactly those at a strictly increasing list of original indices satisfying
the (index-only) filter predicate. -/
theorem enumFrom_filter_map_ix (p : ℕ → Bool) :
    ∀ (l : List Obstacle) (s : ℕ),
      ∃ ix : List ℕ, List.Sorted (· < ·) ix ∧
        (∀ i ∈ ix, s ≤ i ∧ i - s < l.length ∧ p i = true) ∧
        ((List.enumFrom s l).filter (fun e => p e.1)).map Prod.snd =
          ix.map (fun i => l.getD (i - s) default) := by
  intro l
  induction l with
  | nil => intro s; exact ⟨[], by simp, by simp, by simp⟩
  | cons a t ih =>
      intro s
      obtain ⟨ix, hsort, hbound, heq⟩ := ih (s + 1)
      simp only [List.enumFrom_cons, List.filter_cons]
      by_cases hp : p s = true
      · refine ⟨s :: ix, ?_, ?_, ?_⟩
        · rw [List.sorted_cons]
          refine ⟨fun i hi => ?_, hsort⟩
          have := (hbound i hi).1
          omega
        · intro i hi
          rcases List.mem_cons.1 hi with rfl | hi2
          · refine ⟨le_refl i, ?_, hp⟩
            simp only [List.length_cons]
            omega
          · obtain ⟨h1, h2, h3⟩ := hbound i hi2
            refine ⟨by omega, ?_, h3⟩
            simp only [List.length_cons]
            omega
        · rw [if_pos (by simpa using hp)]
          simp only [List.map_cons]
          congr 1
          · simp
          · rw [heq]
            apply List.map_congr_left
            intro i hi
            obtain ⟨h1, _, _⟩ := hbound i hi
            have hi1 : i - s = (i - (s + 1)) + 1 := by omega
            rw [hi1, List.getD_cons_succ]
      · refine ⟨ix, hsort, ?_, ?_⟩
        · intro i hi
          obtain ⟨h1, h2, h3⟩ := hbound i hi
          refine ⟨by omega, ?_, h3⟩
          simp only [List.length_cons]
          omega
        · rw [if_neg (by simpa using hp)]
          rw [heq]
          apply List.map_congr_left
          intro i hi
          obtain ⟨h1, _, _⟩ := hbound i hi
          have hi1 : i - s = (i - (s + 1)) + 1 := by omega
          rw [hi1, List.getD_cons_succ]

/-- Every list is the map of getD over its range of indices. -/
theorem list_eq_range_map_getD (l : List Obstacle) :
    l = (List.range l.length).map (fun i => l.getD i default) := by
  apply List.ext_getElem
  · simp
  · intro i h1 h2
    simp only [List.getElem_map, List.getElem_range]
    rw [List.getD_eq_getElem _ _ h1]

/-- Unified selection description of prune_clusters: the output is the
restriction of the input to a strictly increasing list of indices that all avoid
the removal list. -/
theorem prune_clusters_sel (obs : List Obstacle) :
    ∃ ix : List ℕ, List.Sorted (· < ·) ix ∧
      (∀ i ∈ ix, i < obs.length ∧
        i ∉ removalList (build_adj_list obs) (connected_components (build_adj_list obs))) ∧
      prune_clusters obs = ix.map (fun i => obs.getD i default) := by
  simp only [prune_clusters]
  split_ifs with hemp
  · refine ⟨List.range obs.length, List.sorted_lt_range obs.length, ?_, ?_⟩
    · intro i hi
      rw [List.mem_range] at hi
      refine ⟨hi, ?_⟩
      rw [List.isEmpty_iff] at hemp
      rw [hemp]
      simp
    · exact list_eq_range_map_getD obs
  · obtain ⟨ix, hsort, hbound, heq⟩ := enumFrom_filter_map_ix
      (fun i => !((removalList (build_adj_list obs)
        (connected_components (build_adj_list obs))).contains i)) obs 0
    refine ⟨ix, hsort, ?_, ?_⟩
    · intro i hi
      obtain ⟨_, h2, h3⟩ := hbound i hi
      refine ⟨by simpa using h2, ?_⟩
      intro hmem
      rw [Bool.not_eq_eq_eq_not, Bool.not_true] at h3
      have hcontains : (removalList (build_adj_list obs)
          (connected_components (build_adj_list obs))).contains i = true :=
        List.contains_iff_exists_mem_beq.2 ⟨i, hmem, by simp⟩
      rw [h3] at hcontains
      exact Bool.false_ne_true hcontains
    · rw [show obs.enum = List.enumFrom 0 obs from rfl]
      rw [heq]
      apply List.map_congr_left
      intro i hi
      rw [Nat.sub_zero]

/-- Symmetry of the positional adjacency. -/
theorem nearIdx_symm (l : List Obstacle) {a b : ℕ} (h : nearIdx l a b) : nearIdx l b a := by
  obtain ⟨h1, h2, h3, h4⟩ := h
  refine ⟨h2, h1, Ne.symm h3, ?_⟩
  rw [nearProp, nearB_comm]
  exact h4

/-- After prune_clusters, no position has two distinct neighbours in the
NEAR_RADIUS graph: each original component keeps at most two members, and a
position with two distinct neighbours would exhibit three distinct surviving
members of one component. -/
theorem prune_clusters_degree (obs : List Obstacle) :
    ∀ p a b, nearIdx (prune_clusters obs) p a → nearIdx (prune_clusters obs) p b → a = b := by
  intro p a b hpa hpb
  by_contra hab
  have hsym : ∀ u v, v ∈ adjAt (build_adj_list obs) u → u ∈ adjAt (build_adj_list obs) v := by
    intro u v hv
    rw [build_adj_mem] at hv ⊢
    refine ⟨hv.2.1, hv.1, Ne.symm hv.2.2.1, ?_⟩
    rw [nearB_comm]
    exact hv.2.2.2
  have hadj : ∀ u v, v ∈ adjAt (build_adj_list obs) u → v < (build_adj_list obs).length := by
    intro u v hv
    rw [build_adj_mem] at hv
    rw [build_adj_list_length]
    exact hv.2.1
  obtain ⟨hCclosed, hCnd, hCcover⟩ := connected_components_spec (build_adj_list obs) hsym hadj
  obtain ⟨ix, hsort, hbound, heq⟩ := prune_clusters_sel obs
  have hixnd : ix.Nodup := hsort.nodup
  obtain ⟨hplen, halen, hpa3, hpa4⟩ := hpa
  obtain ⟨_, hblen, hpb3, hpb4⟩ := hpb
  rw [heq, List.length_map] at hplen halen hblen
  have hgetq : ∀ q, (hq : q < ix.length) →
      (prune_clusters obs).getD q default = obs.getD (ix.getD q 0) default := by
    intro q hq
    rw [heq, List.getD_eq_getElem _ _ (by simpa using hq), List.getElem_map]
    congr 1
    rw [List.getD_eq_getElem _ _ hq]
  have hinj : ∀ q1 q2, q1 < ix.length → q2 < ix.length → q1 ≠ q2 →
      ix.getD q1 0 ≠ ix.getD q2 0 := by
    intro q1 q2 h1 h2 hne
    rw [List.getD_eq_getElem _ _ h1, List.getD_eq_getElem _ _ h2]
    intro hc
    exact hne (List.Nodup.getElem_inj_iff hixnd |>.1 hc)
  have hmemix : ∀ q, (hq : q < ix.length) → ix.getD q 0 ∈ ix := by
    intro q hq
    rw [List.getD_eq_getElem _ _ hq]
    exact List.getElem_mem _
  have hbp := hbound (ix.getD p 0) (hmemix p hplen)
  have hba := hbound (ix.getD a 0) (hmemix a halen)
  have hbb := hbound (ix.getD b 0) (hmemix b hblen)
  rw [nearProp, hgetq p hplen, hgetq a halen] at hpa4
  rw [nearProp, hgetq p hplen, hgetq b hblen] at hpb4
  have hadjmemA : ix.getD a 0 ∈ adjAt (build_adj_list obs) (ix.getD p 0) := by
    rw [build_adj_mem]
    exact ⟨hbp.1, hba.1, hinj p a hplen halen hpa3, hpa4⟩
  have hadjmemB : ix.getD b 0 ∈ adjAt (build_adj_list obs) (ix.getD p 0) := by
    rw [build_adj_mem]
    exact ⟨hbp.1, hbb.1, hinj p b hplen hblen hpb3, hpb4⟩
  obtain ⟨c, hc, hpc⟩ := hCcover (ix.getD p 0) (by
    rw [build_adj_list_length]
    exact hbp.1)
  have hac : ix.getD a 0 ∈ c := hCclosed c hc _ hpc _ hadjmemA
  have hbc : ix.getD b 0 ∈ c := hCclosed c hc _ hpc _ hadjmemB
  exact retained_bound (build_adj_list obs) (connected_components (build_adj_list obs)) c
    hc (hCnd c hc) (hinj p a hplen halen hpa3) (hinj p b hplen hblen hpb3)
    (hinj a b halen hblen hab) hpc hac hbc hbp.2 hba.2 hbb.2

/-- Bound on a component of any graph whose positions have at most one
neighbour: the component of i is contained in i together with its unique
neighbour. -/
theorem component_ncard_le (l : List Obstacle)
    (hdeg : ∀ p a b, nearIdx l p a → nearIdx l p b → a = b) (i : ℕ) :
    (componentOf l i).ncard ≤ 2 := by
  have hsub : componentOf l i ⊆ insert i {j | nearIdx l i j} := by
    intro j hj
    rw [componentOf, Set.mem_setOf_eq, reachIdx] at hj
    induction hj with
    | refl => exact Set.mem_insert i _
    | tail h1 h2 ihm =>
        rcases Set.mem_insert_iff.1 ihm with rfl | hib
        · exact Set.mem_insert_of_mem _ h2
        · have := hdeg _ i _ (nearIdx_symm l hib) h2
          rw [← this]
          exact Set.mem_insert i _
  have hsing : ({j | nearIdx l i j} : Set ℕ).Subsingleton := fun x hx y hy =>
    hdeg i x y hx hy
  rcases hsing.eq_empty_or_singleton with he | ⟨x, hx⟩
  · rw [he] at hsub
    calc (componentOf l i).ncard ≤ (insert i (∅ : Set ℕ)).ncard :=
          Set.ncard_le_ncard hsub (by simp)
      _ ≤ 2 := by simp
  · rw [hx] at hsub
    calc (componentOf l i).ncard ≤ (insert i ({x} : Set ℕ)).ncard :=
          Set.ncard_le_ncard hsub ((Set.finite_singleton x).insert i)
      _ ≤ ({x} : Set ℕ).ncard + 1 := Set.ncard_insert_le i {x}
      _ ≤ 2 := by
          rw [Set.ncard_singleton]

/-- C1: for every random source and target count, in the graph whose vertices
are the obstacles returned by generate_obstacles and whose edges join obstacles
with center distance below NEAR_RADIUS, every connected component has at most
MAX_NEARBY_OBSTACLES members; this is enforced by the post-process
prune_clusters, which removes the highest-degree members of each oversized
component of the built adjacency graph. -/
theorem C1_component_bound (src : RandomSource) (count : ℕ) (i : ℕ) :
    (componentOf (generate_obstacles src count) i).ncard ≤ MAX_NEARBY_OBSTACLES := by
  have hM : MAX_NEARBY_OBSTACLES = 2 := rfl
  rw [hM]
  simp only [generate_obstacles]
  exact component_ncard_le _ (prune_clusters_degree _) i

/-- A state field preserved by every step of a fold is preserved by the fold. -/
theorem foldl_proj_eq {σ α β : Type} (f : σ → α → σ) (proj : σ → β)
    (hf : ∀ s a, proj (f s a) = proj s) :
    ∀ (l : List α) (s : σ), proj (l.foldl f s) = proj s := by
  intro l
  induction l with
  | nil => intro s; rfl
  | cons a t ih => intro s; rw [List.foldl_cons, ih, hf]

/-- move_player only changes the position: the level is kept. -/
theorem move_player_level (env : FloatEnv) (dt : ℚ) (keys : Keys)
    (obstacles : List Obstacle) (p : Player) :
    (move_player env dt keys obstacles p).level = p.level := by
  simp only [move_player]
  split_ifs <;> rfl

/-- move_player only changes the position: the hit points are kept. -/
theorem move_player_hp (env : FloatEnv) (dt : ℚ) (keys : Keys)
    (obstacles : List Obstacle) (p : Player) :
    (move_player env dt keys obstacles p).hp = p.hp := by
  simp only [move_player]
  split_ifs <;> rfl

/-- With no key held the input direction is zero and move_player is the
identity. -/
theorem move_player_noKeys (env : FloatEnv) (dt : ℚ) (obstacles : List Obstacle)
    (p : Player) : move_player env dt noKeys obstacles p = p := by
  simp [move_player, noKeys, b2q]

/-- Death bookkeeping keeps the player's x coordinate (only experience is
written). -/
theorem finishMob_player_x (mobs : List Mob) (player : Player) (projs : List Projectile)
    (lavas : List LavaPool) (k : ℕ) (m : Mob) :
    (finishMob mobs player projs lavas k m).player.x = player.x := by
  simp only [finishMob]
  split_ifs <;> rfl

/-- Death bookkeeping keeps the player's y coordinate. -/
theorem finishMob_player_y (mobs : List Mob) (player : Player) (projs : List Projectile)
    (lavas : List LavaPool) (k : ℕ) (m : Mob) :
    (finishMob mobs player projs lavas k m).player.y = player.y := by
  simp only [finishMob]
  split_ifs <;> rfl

/-- Death bookkeeping keeps the player's level. -/
theorem finishMob_player_level (mobs : List Mob) (player : Player) (projs : List Projectile)
    (lavas : List LavaPool) (k : ℕ) (m : Mob) :
    (finishMob mobs player projs lavas k m).player.level = player.level := by
  simp only [finishMob]
  split_ifs <;> rfl

/-- One mob update leaves the player's x coordinate unchanged (only hit points
and experience are ever written). -/
theorem update_mob_player_x (env : FloatEnv) (src : RandomSource) (dt : ℚ) (minute : ℤ)
    (obstacles : List Obstacle) (st : MobUpd) (m : Mob) :
    (update_mob env src dt minute obstacles st m).player.x = st.player.x := by
  simp only [update_mob]
  split_ifs <;> simp only [finishMob_player_x]

/-- One mob update leaves the player's y coordinate unchanged. -/
theorem update_mob_player_y (env : FloatEnv) (src : RandomSource) (dt : ℚ) (minute : ℤ)
    (obstacles : List Obstacle) (st : MobUpd) (m : Mob) :
    (update_mob env src dt minute obstacles st m).player.y = st.player.y := by
  simp only [update_mob]
  split_ifs <;> simp only [finishMob_player_y]

/-- One mob update leaves the player's level unchanged. -/
theorem update_mob_player_level (env : FloatEnv) (src : RandomSource) (dt : ℚ) (minute : ℤ)
    (obstacles : List Obstacle) (st : MobUpd) (m : Mob) :
    (update_mob env src dt minute obstacles st m).player.level = st.player.level := by
  simp only [update_mob]
  split_ifs <;> simp only [finishMob_player_level]

/-- The whole mob loop leaves the player's x coordinate unchanged. -/
theorem mobLoop_player_x (env : FloatEnv) (src : RandomSource) (dt : ℚ) (minute : ℤ)
    (obstacles : List Obstacle) (snapshot : List Mob) (st : MobUpd) :
    (mobLoop env src dt minute obstacles snapshot st).player.x = st.player.x :=
  foldl_proj_eq _ (fun s => s.player.x)
    (fun s a => update_mob_player_x env src dt minute obstacles s a) snapshot st

/-- The whole mob loop leaves the player's y coordinate unchanged. -/
theorem mobLoop_player_y (env : FloatEnv) (src : RandomSource) (dt : ℚ) (minute : ℤ)
    (obstacles : List Obstacle) (snapshot : List Mob) (st : MobUpd) :
    (mobLoop env src dt minute obstacles snapshot st).player.y = st.player.y :=
  foldl_proj_eq _ (fun s => s.player.y)
    (fun s a => update_mob_player_y env src dt minute obstacles s a) snapshot st

/-- The whole mob loop leaves the player's level unchanged. -/
theorem mobLoop_player_level (env : FloatEnv) (src : RandomSource) (dt : ℚ) (minute : ℤ)
    (obstacles : List Obstacle) (snapshot : List Mob) (st : MobUpd) :
    (mobLoop env src dt minute obstacles snapshot st).player.level = st.player.level :=
  foldl_proj_eq _ (fun s => s.player.level)
    (fun s a => update_mob_player_level env src dt minute obstacles s a) snapshot st

/-- One projectile update leaves the player's x coordinate unchanged. -/
theorem update_projectile_player_x (dt : ℚ) (obstacles : List Obstacle) (st : ProjUpd)
    (p : Projectile) :
    (update_projectile dt obstacles st p).player.x = st.player.x := by
  simp only [update_projectile]
  split_ifs <;> simp

/-- One projectile update leaves the player's y coordinate unchanged. -/
theorem update_projectile_player_y (dt : ℚ) (obstacles : List Obstacle) (st : ProjUpd)
    (p : Projectile) :
    (update_projectile dt obstacles st p).player.y = st.player.y := by
  simp only [update_projectile]
  split_ifs <;> simp

/-- One projectile update leaves the player's level unchanged. -/
theorem update_projectile_player_level (dt : ℚ) (obstacles : List Obstacle) (st : ProjUpd)
    (p : Projectile) :
    (update_projectile dt obstacles st p).player.level = st.player.level := by
  simp only [update_projectile]
  split_ifs <;> simp

/-- The projectile loop leaves the player's x coordinate unchanged. -/
theorem projLoop_player_x (dt : ℚ) (obstacles : List Obstacle)
    (snapshot : List Projectile) (st : ProjUpd) :
    (projLoop dt obstacles snapshot st).player.x = st.player.x :=
  foldl_proj_eq _ (fun s => s.player.x)
    (fun s a => update_projectile_player_x dt obstacles s a) snapshot st

/-- The projectile loop leaves the player's y coordinate unchanged. -/
theorem projLoop_player_y (dt : ℚ) (obstacles : List Obstacle)
    (snapshot : List Projectile) (st : ProjUpd) :
    (projLoop dt obstacles snapshot st).player.y = st.player.y :=
  foldl_proj_eq _ (fun s => s.player.y)
    (fun s a => update_projectile_player_y dt obstacles s a) snapshot st

/-- The projectile loop leaves the player's level unchanged. -/
theorem projLoop_player_level (dt : ℚ) (obstacles : List Obstacle)
    (snapshot : List Projectile) (st : ProjUpd) :
    (projLoop dt obstacles snapshot st).player.level = st.player.level :=
  foldl_proj_eq _ (fun s => s.player.level)
    (fun s a => update_projectile_player_level dt obstacles s a) snapshot st

/-- One lava pool update leaves the player's x coordinate unchanged. -/
theorem update_lava_player_x (dt : ℚ) (st : LavaUpd) (lv : LavaPool) :
    (update_lava dt st lv).player.x = st.player.x := by
  simp only [update_lava]
  split_ifs <;> simp

/-- One lava pool update leaves the player's y coordinate unchanged. -/
theorem update_lava_player_y (dt : ℚ) (st : LavaUpd) (lv : LavaPool) :
    (update_lava dt st lv).player.y = st.player.y := by
  simp only [update_lava]
  split_ifs <;> simp

/-- One lava pool update leaves the player's level unchanged. -/
theorem update_lava_player_level (dt : ℚ) (st : LavaUpd) (lv : LavaPool) :
    (update_lava dt st lv).player.level = st.player.level := by
  simp only [update_lava]
  split_ifs <;> simp

/-- The lava loop leaves the player's x coordinate unchanged. -/
theorem lavaLoop_player_x (dt : ℚ) (snapshot : List LavaPool) (st : LavaUpd) :
    (lavaLoop dt snapshot st).player.x = st.player.x :=
  foldl_proj_eq _ (fun s => s.player.x) (fun s a => update_lava_player_x dt s a) snapshot st

/-- The lava loop leaves the player's y coordinate unchanged. -/
theorem lavaLoop_player_y (dt : ℚ) (snapshot : List LavaPool) (st : LavaUpd) :
    (lavaLoop dt snapshot st).player.y = st.player.y :=
  foldl_proj_eq _ (fun s => s.player.y) (fun s a => update_lava_player_y dt s a) snapshot st

/-- The lava loop leaves the player's level unchanged. -/
theorem lavaLoop_player_level (dt : ℚ) (snapshot : List LavaPool) (st : LavaUpd) :
    (lavaLoop dt snapshot st).player.level = st.player.level :=
  foldl_proj_eq _ (fun s => s.player.level)
    (fun s a => update_lava_player_level dt s a) snapshot st

/-- auto_attack only rewrites the attack timer of the player: x is kept. -/
theorem auto_attack_fst_x (env : FloatEnv) (dt : ℚ) (player : Player) (mobs : List Mob)
    (projs : List Projectile) :
    (auto_attack env dt player mobs projs).1.x = player.x := by
  simp only [auto_attack]
  repeat' split
  all_goals rfl

/-- auto_attack only rewrites the attack timer of the player: y is kept. -/
theorem auto_attack_fst_y (env : FloatEnv) (dt : ℚ) (player : Player) (mobs : List Mob)
    (projs : List Projectile) :
    (auto_attack env dt player mobs projs).1.y = player.y := by
  simp only [auto_attack]
  repeat' split
  all_goals rfl

/-- auto_attack only rewrites the attack timer of the player: the level is kept. -/
theorem auto_attack_fst_level (env : FloatEnv) (dt : ℚ) (player : Player) (mobs : List Mob)
    (projs : List Projectile) :
    (auto_attack env dt player mobs projs).1.level = player.level := by
  simp only [auto_attack]
  repeat' split
  all_goals rfl

/-- auto_attack only rewrites the attack timer of the player: the hit points
are kept. -/
theorem auto_attack_fst_hp (env : FloatEnv) (dt : ℚ) (player : Player) (mobs : List Mob)
    (projs : List Projectile) :
    (auto_attack env dt player mobs projs).1.hp = player.hp := by
  simp only [auto_attack]
  repeat' split
  all_goals rfl

/-- end_checks never moves the player. -/
theorem end_checks_player_x (g : GameState) : (end_checks g).player.x = g.player.x := by
  simp only [end_checks]
  split_ifs <;> simp

/-- end_checks never moves the player. -/
theorem end_checks_player_y (g : GameState) : (end_checks g).player.y = g.player.y := by
  simp only [end_checks]
  split_ifs <;> simp

/-- end_checks never changes the hit points. -/
theorem end_checks_hp (g : GameState) : (end_checks g).player.hp = g.player.hp := by
  simp only [end_checks]
  split_ifs <;> simp

/-- end_checks never changes the experience. -/
theorem end_checks_xp (g : GameState) : (end_checks g).player.xp = g.player.xp := by
  simp only [end_checks]
  split_ifs <;> simp

/-- end_checks never changes the elapsed time. -/
theorem end_checks_elapsed (g : GameState) : (end_checks g).elapsed = g.elapsed := by
  simp only [end_checks]
  split_ifs <;> simp

/-- The death check runs last: hit points at most 0 force the dead state,
whatever the earlier checks did. -/
theorem end_checks_dead (g : GameState) (h : g.player.hp ≤ 0) :
    (end_checks g).state = "dead" := by
  simp only [end_checks]
  split_ifs <;> simp_all

/-- With positive hit points, reaching the level duration forces the win
state. -/
theorem end_checks_win (g : GameState) (h1 : 0 < g.player.hp)
    (h2 : LEVEL_DURATION_SECONDS ≤ g.elapsed) : (end_checks g).state = "win" := by
  simp only [end_checks]
  split_ifs <;> simp_all <;> linarith

/-- Crossing the experience threshold increments the level by exactly one. -/
theorem end_checks_level_up (g : GameState) (h : g.player.level * 5 ≤ g.player.xp) :
    (end_checks g).player.level = g.player.level + 1 := by
  simp only [end_checks]
  split_ifs <;> simp_all

/-- Below the experience threshold the level is unchanged. -/
theorem end_checks_level_eq (g : GameState) (h : g.player.xp < g.player.level * 5) :
    (end_checks g).player.level = g.player.level := by
  simp only [end_checks]
  split_ifs <;> simp_all <;> omega

/-- Crossing the experience threshold with positive hit points before the level
duration switches the state to levelup. -/
theorem end_checks_levelup_state (g : GameState) (hxp : g.player.level * 5 ≤ g.player.xp)
    (hhp : 0 < g.player.hp) (hel : g.elapsed < LEVEL_DURATION_SECONDS) :
    (end_checks g).state = "levelup" := by
  simp only [end_checks]
  split_ifs <;> simp_all <;> linarith

/-- When no final check fires, end_checks is the identity. -/
theorem end_checks_id (g : GameState) (hxp : g.player.xp < g.player.level * 5)
    (hhp : 0 < g.player.hp) (hel : g.elapsed < LEVEL_DURATION_SECONDS) :
    end_checks g = g := by
  have h1 : ¬(g.player.level * 5 ≤ g.player.xp) := not_le.2 hxp
  have h2 : ¬(LEVEL_DURATION_SECONDS ≤ g.elapsed) := not_le.2 hel
  have h3 : ¬(g.player.hp ≤ 0) := not_le.2 hhp
  simp only [end_checks]
  rw [if_neg h1, if_neg h2, if_neg h3]

/-- One event never touches the timers, the entity lists, the obstacles or the
random counter. -/
theorem processEvent_const (g : GameState) (ev : PyEvent) :
    (processEvent g ev).elapsed = g.elapsed ∧ (processEvent g ev).spawn_acc = g.spawn_acc ∧
    (processEvent g ev).mobs = g.mobs ∧
    (processEvent g ev).projectile_list = g.projectile_list ∧
    (processEvent g ev).lava_pools = g.lava_pools ∧
    (processEvent g ev).obstacles = g.obstacles ∧ (processEvent g ev).rngK = g.rngK := by
  cases ev with
  | quit => exact ⟨rfl, rfl, rfl, rfl, rfl, rfl, rfl⟩
  | keydown key =>
      simp only [processEvent, applyLevelChoice]
      split_ifs <;> exact ⟨rfl, rfl, rfl, rfl, rfl, rfl, rfl⟩

/-- Outside the levelup state, an event can only clear the running flag: the
player and the state tag are unchanged. -/
theorem processEvent_playerstate (g : GameState) (ev : PyEvent) (h : g.state ≠ "levelup") :
    (processEvent g ev).player = g.player ∧ (processEvent g ev).state = g.state := by
  cases ev with
  | quit => exact ⟨rfl, rfl⟩
  | keydown key =>
      simp only [processEvent, applyLevelChoice]
      split_ifs <;> first | exact ⟨rfl, rfl⟩ | simp_all

/-- The event loop never touches the timers, the entity lists, the obstacles or
the random counter. -/
theorem processEvents_const (events : List PyEvent) :
    ∀ g : GameState,
      (processEvents events g).elapsed = g.elapsed ∧
      (processEvents events g).spawn_acc = g.spawn_acc ∧
      (processEvents events g).mobs = g.mobs ∧
      (processEvents events g).projectile_list = g.projectile_list ∧
      (processEvents events g).lava_pools = g.lava_pools ∧
      (processEvents events g).obstacles = g.obstacles ∧
      (processEvents events g).rngK = g.rngK := by
  induction events with
  | nil => intro g; exact ⟨rfl, rfl, rfl, rfl, rfl, rfl, rfl⟩
  | cons e es ih =>
      intro g
      have h1 := processEvent_const g e
      have h2 := ih (processEvent g e)
      exact ⟨h2.1.trans h1.1, h2.2.1.trans h1.2.1, h2.2.2.1.trans h1.2.2.1,
        h2.2.2.2.1.trans h1.2.2.2.1, h2.2.2.2.2.1.trans h1.2.2.2.2.1,
        h2.2.2.2.2.2.1.trans h1.2.2.2.2.2.1, h2.2.2.2.2.2.2.trans h1.2.2.2.2.2.2⟩

/-- Outside the levelup state, the event loop keeps the player and the state
tag. -/
theorem processEvents_playerstate (events : List PyEvent) :
    ∀ g : GameState, g.state ≠ "levelup" →
      (processEvents events g).player = g.player ∧
      (processEvents events g).state = g.state := by
  induction events with
  | nil => intro g _; exact ⟨rfl, rfl⟩
  | cons e es ih =>
      intro g h
      have h1 := processEvent_playerstate g e h
      have h2 := ih (processEvent g e) (by rw [h1.2]; exact h)
      exact ⟨h2.1.trans h1.1, h2.2.trans h1.2⟩

/-- Shape of the playing branch: it is end_checks of a state that keeps the
level and the elapsed time of its input, and — with no key held — also the
player's position. -/
theorem playingFrame_spec (env : FloatEnv) (src : RandomSource) (dt : ℚ) (keys : Keys)
    (minute : ℤ) (g : GameState) :
    ∃ G : GameState, playingFrame env src dt keys minute g = end_checks G ∧
      G.player.level = g.player.level ∧ G.elapsed = g.elapsed ∧
      (keys = noKeys → G.player.x = g.player.x ∧ G.player.y = g.player.y) := by
  refine ⟨_, rfl, ?_, ?_, ?_⟩
  · simp only [auto_attack_fst_level, lavaLoop_player_level, projLoop_player_level,
      mobLoop_player_level, move_player_level]
  · rfl
  · intro hk
    subst hk
    constructor
    · simp only [auto_attack_fst_x, lavaLoop_player_x, projLoop_player_x,
        mobLoop_player_x, move_player_noKeys]
    · simp only [auto_attack_fst_y, lavaLoop_player_y, projLoop_player_y,
        mobLoop_player_y, move_player_noKeys]

/-- Shape of a whole frame started in the playing state: it is end_checks of a
state that keeps the level, advances elapsed by dt, and — with no key held —
keeps the player's position. -/
theorem frame_playing_spec (env : FloatEnv) (src : RandomSource) (dt : ℚ) (keys : Keys)
    (events : List PyEvent) (g : GameState) (hst : g.state = "playing") :
    ∃ G : GameState, frame env src dt keys events g = end_checks G ∧
      G.player.level = g.player.level ∧ G.elapsed = g.elapsed + dt ∧
      (keys = noKeys → G.player.x = g.player.x ∧ G.player.y = g.player.y) := by
  have hps := processEvents_playerstate events { g with elapsed := g.elapsed + dt }
    (by simp [hst])
  have hc := processEvents_const events { g with elapsed := g.elapsed + dt }
  obtain ⟨G, h1, h2, h3, h4⟩ := playingFrame_spec env src dt keys ⌊(g.elapsed + dt) / 60⌋
    (processEvents events { g with elapsed := g.elapsed + dt })
  refine ⟨G, ?_, ?_, ?_, ?_⟩
  · simp only [frame]
    rw [if_pos (by rw [hps.2]; exact hst)]
    exact h1
  · rw [h2, hps.1]
  · rw [h3, hc.1]
  · intro hk
    obtain ⟨hx, hy⟩ := h4 hk
    exact ⟨by rw [hx, hps.1], by rw [hy, hps.1]⟩

/-- A frame started in neither the playing nor the levelup state keeps the
state tag, the player and every entity list (only the running flag can be
cleared by events). -/
theorem frame_nonplaying (env : FloatEnv) (src : RandomSource) (dt : ℚ) (keys : Keys)
    (events : List PyEvent) (g : GameState)
    (h1 : g.state ≠ "playing") (h2 : g.state ≠ "levelup") :
    (frame env src dt keys events g).state = g.state ∧
    (frame env src dt keys events g).player = g.player ∧
    (frame env src dt keys events g).mobs = g.mobs ∧
    (frame env src dt keys events g).projectile_list = g.projectile_list ∧
    (frame env src dt keys events g).lava_pools = g.lava_pools := by
  have hps := processEvents_playerstate events { g with elapsed := g.elapsed + dt }
    (by exact h2)
  have hc := processEvents_const events { g with elapsed := g.elapsed + dt }
  simp only [frame]
  rw [if_neg (by rw [hps.2]; exact h1)]
  exact ⟨hps.2, hps.1, hc.2.2.1, hc.2.2.2.1, hc.2.2.2.2.1⟩

/-- Elapsed time accrues by dt on every frame, whatever the state. -/
theorem frame_elapsed (env : FloatEnv) (src : RandomSource) (dt : ℚ) (keys : Keys)
    (events : List PyEvent) (g : GameState) :
    (frame env src dt keys events g).elapsed = g.elapsed + dt := by
  obtain ⟨G, h1, _, h3, _⟩ := playingFrame_spec env src dt keys ⌊(g.elapsed + dt) / 60⌋
    (processEvents events { g with elapsed := g.elapsed + dt })
  have hc := (processEvents_const events { g with elapsed := g.elapsed + dt }).1
  simp only [frame]
  split_ifs with hs
  · rw [h1, end_checks_elapsed, h3, hc]
  · rw [hc]

/-- The spawn while-loop does nothing when the accumulator is below the
interval. -/
theorem spawnWhile_of_lt (src : RandomSource) (minute : ℤ) (px py : ℚ)
    (obstacles : List Obstacle) (interval acc : ℚ) (mobs : List Mob) (k : ℕ)
    (h : acc < interval) :
    spawnWhile src minute px py obstacles interval acc mobs k = (acc, mobs, k) := by
  rw [spawnWhile]
  rw [dif_neg (fun hc => absurd hc.1 (not_le.2 h))]

/-- A playing frame with no key held, no event, no entity in the world and no
spawn due runs the whole simulation as a no-op: only the attack timer and the
two time accumulators move before the final checks. -/
theorem frame_idle (env : FloatEnv) (src : RandomSource) (dt : ℚ) (g : GameState)
    (hst : g.state = "playing") (hm : g.mobs = []) (hpj : g.projectile_list = [])
    (hlv : g.lava_pools = [])
    (hsp : g.spawn_acc + dt < spawn_interval ⌊(g.elapsed + dt) / 60⌋) :
    frame env src dt noKeys [] g =
      end_checks { g with
        player := { g.player with attack_timer := g.player.attack_timer - dt },
        elapsed := g.elapsed + dt, spawn_acc := g.spawn_acc + dt } := by
  simp only [frame, processEvents, List.foldl_nil]
  rw [if_pos hst]
  simp only [playingFrame]
  rw [move_player_noKeys, hm, hpj, hlv]
  rw [spawnWhile_of_lt _ _ _ _ _ _ _ _ _ hsp]
  simp only [mobLoop, projLoop, lavaLoop, List.foldl_nil, auto_attack, nearest_mob]
  split_ifs <;> rfl

/-- C10: on every iteration of the main loop after champion selection, the
elapsed time increases by that frame's dt regardless of the current state —
playing, levelup, win or dead alike — so simulated time keeps accruing while
the level-up menu suspends the simulation and after a terminal state. -/
theorem C10_elapsed_accrues (env : FloatEnv) (src : RandomSource) (dt : ℚ) (keys : Keys)
    (events : List PyEvent) (g : GameState) :
    (frame env src dt keys events g).elapsed = g.elapsed + dt :=
  frame_elapsed env src dt keys events g

/-- C5 (corrected): in a playing frame the death check runs after the win
check, so death takes precedence: hit points ≤ 0 at the end of the frame give
the dead state; reaching the level duration gives the win state only when the
hit points stayed positive.  Win and dead are terminal: a frame started in
either keeps the state tag, the player and every entity list. -/
theorem C5_terminal_transitions (env : FloatEnv) (src : RandomSource) (dt : ℚ)
    (keys : Keys) (events : List PyEvent) (g : GameState) :
    (g.state = "playing" →
      ((frame env src dt keys events g).player.hp ≤ 0 →
        (frame env src dt keys events g).state = "dead") ∧
      (0 < (frame env src dt keys events g).player.hp →
        LEVEL_DURATION_SECONDS ≤ g.elapsed + dt →
        (frame env src dt keys events g).state = "win")) ∧
    ((g.state = "win" ∨ g.state = "dead") →
      (frame env src dt keys events g).state = g.state ∧
      (frame env src dt keys events g).player = g.player ∧
      (frame env src dt keys events g).mobs = g.mobs ∧
      (frame env src dt keys events g).projectile_list = g.projectile_list ∧
      (frame env src dt keys events g).lava_pools = g.lava_pools) := by
  constructor
  · intro hst
    obtain ⟨G, h1, _, h3, _⟩ := frame_playing_spec env src dt keys events g hst
    rw [h1]
    refine ⟨?_, ?_⟩
    · intro hh
      rw [end_checks_hp] at hh
      exact end_checks_dead G hh
    · intro hh hel
      rw [end_checks_hp] at hh
      exact end_checks_win G hh (by rw [h3]; exact hel)
  · rintro (h | h) <;>
      exact frame_nonplaying env src dt keys events g (by simp [h]) (by simp [h])

/-- C5 counterexample: a playing frame that crosses the level duration with the
player at 0 hit points ends in the dead state, not the win state the claim
promises for elapsed ≥ LEVEL_DURATION_SECONDS (the death check runs last and
overwrites the win assignment). -/
theorem C5_win_overridden :
    ({ player := { x := 1200, y := 900, hp := 0 }, projectile_list := [], lava_pools := [],
        mobs := [], obstacles := [], elapsed := 600, spawn_acc := 0, state := "playing",
        running := true, rngK := 0 } : GameState).state = "playing" ∧
    LEVEL_DURATION_SECONDS ≤ (600 : ℚ) + 1 / 4 ∧
    (frame envZero srcZero (1 / 4) noKeys []
        { player := { x := 1200, y := 900, hp := 0 }, projectile_list := [], lava_pools := [],
          mobs := [], obstacles := [], elapsed := 600, spawn_acc := 0, state := "playing",
          running := true, rngK := 0 }).state = "dead" := by
  have hfi := frame_idle envZero srcZero (1 / 4)
    { player := { x := 1200, y := 900, hp := 0 }, projectile_list := [], lava_pools := [],
      mobs := [], obstacles := [], elapsed := 600, spawn_acc := 0, state := "playing",
      running := true, rngK := 0 }
    rfl rfl rfl rfl
    (by simp only [spawn_interval]
        refine lt_of_lt_of_le ?_ (le_max_left _ _)
        norm_num)
  refine ⟨rfl, by norm_num [LEVEL_DURATION_SECONDS], ?_⟩
  rw [hfi]
  exact end_checks_dead _ (by norm_num)

/-- C5 witness: a concrete playing frame crossing the level duration with full
hit points does transition to the win state. -/
theorem C5_witness :
    (frame envZero srcZero (1 / 4) noKeys []
        { player := { x := 1200, y := 900 }, projectile_list := [], lava_pools := [],
          mobs := [], obstacles := [], elapsed := 600, spawn_acc := 0, state := "playing",
          running := true, rngK := 0 }).state = "win" := by
  have hfi := frame_idle envZero srcZero (1 / 4)
    { player := { x := 1200, y := 900 }, projectile_list := [], lava_pools := [],
      mobs := [], obstacles := [], elapsed := 600, spawn_acc := 0, state := "playing",
      running := true, rngK := 0 }
    rfl rfl rfl rfl
    (by simp only [spawn_interval]
        refine lt_of_lt_of_le ?_ (le_max_left _ _)
        norm_num)
  refine ((C5_terminal_transitions envZero srcZero (1 / 4) noKeys [] _).1 rfl).2 ?_
    (by norm_num [LEVEL_DURATION_SECONDS])
  rw [hfi, end_checks_hp]
  norm_num

/-- C6 (corrected): in a playing frame whose end-of-frame experience reaches
the threshold level × 5, the level is incremented by exactly one; the state
becomes levelup only when neither the death nor the win check fires (both run
later and overwrite it).  Below the threshold the level is unchanged.
Resolving the menu with key 1, 2 or 3 applies exactly the chosen flat bonus,
returns the state to playing and leaves the level untouched. -/
theorem C6_level_threshold (env : FloatEnv) (src : RandomSource) (dt : ℚ)
    (keys : Keys) (events : List PyEvent) (g : GameState) (hst : g.state = "playing") :
    (g.player.level * 5 ≤ (frame env src dt keys events g).player.xp →
      (frame env src dt keys events g).player.level = g.player.level + 1 ∧
      (0 < (frame env src dt keys events g).player.hp →
        (frame env src dt keys events g).elapsed < LEVEL_DURATION_SECONDS →
        (frame env src dt keys events g).state = "levelup")) ∧
    ((frame env src dt keys events g).player.xp < g.player.level * 5 →
      (frame env src dt keys events g).player.level = g.player.level) ∧
    (∀ g' : GameState, g'.state = "levelup" →
      processEvent g' (PyEvent.keydown K_1) =
        { g' with
          player := { g'.player with
            proj_dmg := g'.player.proj_dmg + 8 + (g'.player.level : ℚ) * 2,
            attack_range := g'.player.attack_range + 10 },
          state := "playing" } ∧
      processEvent g' (PyEvent.keydown K_2) =
        { g' with
          player := { g'.player with speed := g'.player.speed + 40 },
          state := "playing" } ∧
      processEvent g' (PyEvent.keydown K_3) =
        { g' with
          player := { g'.player with hp := g'.player.hp + 40 },
          state := "playing" }) := by
  obtain ⟨G, h1, h2, _, _⟩ := frame_playing_spec env src dt keys events g hst
  refine ⟨?_, ?_, ?_⟩
  · intro hxp
    rw [h1] at hxp ⊢
    rw [end_checks_xp] at hxp
    rw [← h2] at hxp
    constructor
    · rw [end_checks_level_up G hxp, h2]
    · intro hhp hel
      rw [end_checks_hp] at hhp
      rw [end_checks_elapsed] at hel
      exact end_checks_levelup_state G hxp hhp hel
  · intro hxp
    rw [h1] at hxp ⊢
    rw [end_checks_xp] at hxp
    rw [← h2] at hxp
    rw [end_checks_level_eq G hxp, h2]
  · intro g' hlv
    refine ⟨?_, ?_, ?_⟩ <;>
      · simp only [processEvent, applyLevelChoice, K_1, K_2, K_3, K_ESCAPE]
        norm_num [hlv]

/-- C6 witness: the threshold theorem instantiated on a concrete playing
frame from the initial mage state. -/
theorem C6_witness :
    (initGameState [] "mage").state = "playing" ∧
    (((initGameState [] "mage").player.level * 5 ≤
        (frame envZero srcZero 1 noKeys [] (initGameState [] "mage")).player.xp →
      (frame envZero srcZero 1 noKeys [] (initGameState [] "mage")).player.level =
        (initGameState [] "mage").player.level + 1 ∧
      (0 < (frame envZero srcZero 1 noKeys [] (initGameState [] "mage")).player.hp →
        (frame envZero srcZero 1 noKeys [] (initGameState [] "mage")).elapsed <
          LEVEL_DURATION_SECONDS →
        (frame envZero srcZero 1 noKeys [] (initGameState [] "mage")).state = "levelup")) ∧
    ((frame envZero srcZero 1 noKeys [] (initGameState [] "mage")).player.xp <
        (initGameState [] "mage").player.level * 5 →
      (frame envZero srcZero 1 noKeys [] (initGameState [] "mage")).player.level =
        (initGameState [] "mage").player.level) ∧
    (∀ g' : GameState, g'.state = "levelup" →
      processEvent g' (PyEvent.keydown K_1) =
        { g' with
          player := { g'.player with
            proj_dmg := g'.player.proj_dmg + 8 + (g'.player.level : ℚ) * 2,
            attack_range := g'.player.attack_range + 10 },
          state := "playing" } ∧
      processEvent g' (PyEvent.keydown K_2) =
        { g' with
          player := { g'.player with speed := g'.player.speed + 40 },
          state := "playing" } ∧
      processEvent g' (PyEvent.keydown K_3) =
        { g' with
          player := { g'.player with hp := g'.player.hp + 40 },
          state := "playing" })) :=
  ⟨rfl, C6_level_threshold envZero srcZero 1 noKeys [] (initGameState [] "mage") rfl⟩

/-- Death bookkeeping returns the projectile list it was given. -/
theorem finishMob_projs (mobs : List Mob) (player : Player) (projs : List Projectile)
    (lavas : List LavaPool) (k : ℕ) (m : Mob) :
    (finishMob mobs player projs lavas k m).projectile_list = projs := by
  simp only [finishMob]
  split_ifs <;> rfl

/-- Death bookkeeping returns the lava pool list it was given. -/
theorem finishMob_lavas (mobs : List Mob) (player : Player) (projs : List Projectile)
    (lavas : List LavaPool) (k : ℕ) (m : Mob) :
    (finishMob mobs player projs lavas k m).lava_pools = lavas := by
  simp only [finishMob]
  split_ifs <;> rfl

/-- Death bookkeeping keeps the player's hit points (only experience is
written). -/
theorem finishMob_player_hp (mobs : List Mob) (player : Player) (projs : List Projectile)
    (lavas : List LavaPool) (k : ℕ) (m : Mob) :
    (finishMob mobs player projs lavas k m).player.hp = player.hp := by
  simp only [finishMob]
  split_ifs <;> rfl

/-- Playing branch with exactly one melee mob in contact at its contact check,
no projectile, no lava pool and no spawn due: the player loses exactly 12·dt
hit points. -/
theorem playingFrame_melee_hit (env : FloatEnv) (src : RandomSource) (dt : ℚ) (keys : Keys)
    (minute : ℤ) (g : GameState) (m : Mob)
    (hm : g.mobs = [m]) (ht : m.type = "melee") (hpj : g.projectile_list = [])
    (hlv : g.lava_pools = [])
    (hsp : g.spawn_acc + dt < spawn_interval minute)
    (hcontact : distLeB
        (melee_move env g.obstacles dt (move_player env dt keys g.obstacles g.player)
          { m with cooldown := max 0 (m.cooldown - dt) }).1
        (melee_move env g.obstacles dt (move_player env dt keys g.obstacles g.player)
          { m with cooldown := max 0 (m.cooldown - dt) }).2
        (move_player env dt keys g.obstacles g.player).x
        (move_player env dt keys g.obstacles g.player).y
        (MOB_RADIUS + PLAYER_RADIUS) = true) :
    (playingFrame env src dt keys minute g).player.hp = g.player.hp - 12 * dt := by
  simp only [playingFrame]
  rw [hm, hpj, hlv, spawnWhile_of_lt _ _ _ _ _ _ _ _ _ hsp]
  simp only [mobLoop, List.foldl_cons, List.foldl_nil, update_mob]
  split_ifs
  rw [end_checks_hp]
  simp only [auto_attack_fst_hp, finishMob_player_hp, finishMob_projs, finishMob_lavas,
    projLoop, lavaLoop, List.foldl_nil, move_player_hp]

/-- C8: a playing frame of duration dt with exactly one mob, of melee type,
within MOB_RADIUS + PLAYER_RADIUS of the player at its contact check (the
check the source performs after moving both), no projectile, no lava pool and
no spawn due decreases the player's hit points by exactly 12 × dt. -/
theorem C8_melee_contact_damage (env : FloatEnv) (src : RandomSource) (dt : ℚ)
    (keys : Keys) (events : List PyEvent) (g : GameState) (m : Mob)
    (hst : g.state = "playing")
    (hm : g.mobs = [m]) (ht : m.type = "melee")
    (hpj : g.projectile_list = []) (hlv : g.lava_pools = [])
    (hsp : g.spawn_acc + dt < spawn_interval ⌊(g.elapsed + dt) / 60⌋)
    (hcontact : distLeB
        (melee_move env g.obstacles dt (move_player env dt keys g.obstacles g.player)
          { m with cooldown := max 0 (m.cooldown - dt) }).1
        (melee_move env g.obstacles dt (move_player env dt keys g.obstacles g.player)
          { m with cooldown := max 0 (m.cooldown - dt) }).2
        (move_player env dt keys g.obstacles g.player).x
        (move_player env dt keys g.obstacles g.player).y
        (MOB_RADIUS + PLAYER_RADIUS) = true) :
    (frame env src dt keys events g).player.hp = g.player.hp - 12 * dt := by
  have hps := processEvents_playerstate events { g with elapsed := g.elapsed + dt }
    (by simp [hst])
  have hc := processEvents_const events { g with elapsed := g.elapsed + dt }
  have key := playingFrame_melee_hit env src dt keys (Int.floor ((g.elapsed + dt) / 60))
    (processEvents events { g with elapsed := g.elapsed + dt }) m
    (by rw [hc.2.2.1]; exact hm)
    ht
    (by rw [hc.2.2.2.1]; exact hpj)
    (by rw [hc.2.2.2.2.1]; exact hlv)
    (by rw [hc.2.1]; exact hsp)
    (by rw [hc.2.2.2.2.2.1, hps.1]; exact hcontact)
  simp only [frame]
  rw [if_pos (by rw [hps.2]; exact hst)]
  rw [key, hps.1]

/-- C8 witness: a concrete melee mob 10 units from the player is in contact
for a quarter-second frame, and the frame takes exactly 3 hit points. -/
theorem C8_witness :
    distLeB
      (melee_move envZero [] (1 / 4)
        (move_player envZero (1 / 4) noKeys [] { x := 1200, y := 900, attack_timer := 5 })
        { x := 1210, y := 900, hp := 30, speed := 0, type := "melee",
          cooldown := max 0 ((0 : ℚ) - 1 / 4), id := 0 }).1
      (melee_move envZero [] (1 / 4)
        (move_player envZero (1 / 4) noKeys [] { x := 1200, y := 900, attack_timer := 5 })
        { x := 1210, y := 900, hp := 30, speed := 0, type := "melee",
          cooldown := max 0 ((0 : ℚ) - 1 / 4), id := 0 }).2
      (move_player envZero (1 / 4) noKeys [] { x := 1200, y := 900, attack_timer := 5 }).x
      (move_player envZero (1 / 4) noKeys [] { x := 1200, y := 900, attack_timer := 5 }).y
      (MOB_RADIUS + PLAYER_RADIUS) = true ∧
    (frame envZero srcZero (1 / 4) noKeys []
        { player := { x := 1200, y := 900, attack_timer := 5 },
          projectile_list := [], lava_pools := [],
          mobs := [{ x := 1210, y := 900, hp := 30, speed := 0, type := "melee",
                     cooldown := 0, id := 0 }],
          obstacles := [], elapsed := 0, spawn_acc := 0, state := "playing",
          running := true, rngK := 0 }).player.hp = 100 - 12 * (1 / 4) := by
  constructor
  · rw [move_player_noKeys]
    norm_num [melee_move, steer, melee_angles, try_move_ok, envZero, clamp,
      distLeB, distSq, MOB_RADIUS, PLAYER_RADIUS, max_def, min_def, WORLD_W, WORLD_H]
  · have h := C8_melee_contact_damage envZero srcZero (1 / 4) noKeys []
      { player := { x := 1200, y := 900, attack_timer := 5 },
        projectile_list := [], lava_pools := [],
        mobs := [{ x := 1210, y := 900, hp := 30, speed := 0, type := "melee",
                   cooldown := 0, id := 0 }],
        obstacles := [], elapsed := 0, spawn_acc := 0, state := "playing",
        running := true, rngK := 0 }
      { x := 1210, y := 900, hp := 30, speed := 0, type := "melee", cooldown := 0, id := 0 }
      rfl rfl rfl rfl rfl
      (by simp only [spawn_interval]
          refine lt_of_lt_of_le ?_ (le_max_left _ _)
          norm_num)
      (by rw [move_player_noKeys]
          norm_num [melee_move, steer, melee_angles, try_move_ok, envZero, clamp,
            distLeB, distSq, MOB_RADIUS, PLAYER_RADIUS, max_def, min_def, WORLD_W, WORLD_H])
    rw [h]

/-- C6 counterexample: a playing frame that reaches the experience threshold
while also crossing the level duration increments the level but ends in the
win state, not the levelup state the claim promises unconditionally. -/
theorem C6_levelup_overridden :
    (frame envZero srcZero (1 / 4) noKeys []
        { player := { x := 1200, y := 900, xp := 5 }, projectile_list := [], lava_pools := [],
          mobs := [], obstacles := [], elapsed := 600, spawn_acc := 0, state := "playing",
          running := true, rngK := 0 }).player.level = 2 ∧
    (frame envZero srcZero (1 / 4) noKeys []
        { player := { x := 1200, y := 900, xp := 5 }, projectile_list := [], lava_pools := [],
          mobs := [], obstacles := [], elapsed := 600, spawn_acc := 0, state := "playing",
          running := true, rngK := 0 }).state = "win" := by
  have hfi := frame_idle envZero srcZero (1 / 4)
    { player := { x := 1200, y := 900, xp := 5 }, projectile_list := [], lava_pools := [],
      mobs := [], obstacles := [], elapsed := 600, spawn_acc := 0, state := "playing",
      running := true, rngK := 0 }
    rfl rfl rfl rfl
    (by simp only [spawn_interval]
        refine lt_of_lt_of_le ?_ (le_max_left _ _)
        norm_num)
  constructor
  · rw [hfi]
    rw [end_checks_level_up _ (by norm_num)]
    norm_num
  · rw [hfi]
    exact end_checks_win _ (by norm_num) (by norm_num [LEVEL_DURATION_SECONDS])

/-- Invariant of idle frames from a playing state holding no entity, started
before one second of play with the spawn accumulator equal to the elapsed
time: folding any nonnegative frame durations summing to at most one second
keeps the state playing, the world empty, the player's position, hit points,
experience and level, and advances both time accumulators by the total
duration. -/
theorem idle_steps (env : FloatEnv) (src : RandomSource) :
    ∀ (fs : List ℚ) (g : GameState) (t : ℚ),
      g.state = "playing" → g.mobs = [] → g.projectile_list = [] → g.lava_pools = [] →
      g.player.hp = 100 → g.player.xp = 0 → g.player.level = 1 →
      g.elapsed = t → g.spawn_acc = t → 0 ≤ t → (∀ d ∈ fs, 0 ≤ d) → t + fs.sum ≤ 1 →
      ((fs.foldl (fun a d => frame env src d noKeys [] a) g).state = "playing" ∧
        (fs.foldl (fun a d => frame env src d noKeys [] a) g).mobs = [] ∧
        (fs.foldl (fun a d => frame env src d noKeys [] a) g).projectile_list = [] ∧
        (fs.foldl (fun a d => frame env src d noKeys [] a) g).lava_pools = [] ∧
        (fs.foldl (fun a d => frame env src d noKeys [] a) g).player.x = g.player.x ∧
        (fs.foldl (fun a d => frame env src d noKeys [] a) g).player.y = g.player.y ∧
        (fs.foldl (fun a d => frame env src d noKeys [] a) g).player.hp = 100 ∧
        (fs.foldl (fun a d => frame env src d noKeys [] a) g).player.xp = 0 ∧
        (fs.foldl (fun a d => frame env src d noKeys [] a) g).player.level = 1 ∧
        (fs.foldl (fun a d => frame env src d noKeys [] a) g).elapsed = t + fs.sum ∧
        (fs.foldl (fun a d => frame env src d noKeys [] a) g).spawn_acc = t + fs.sum) := by
  intro fs
  induction fs with
  | nil =>
      intro g t h1 h2 h3 h4 h5 h6 h7 h8 h9 _ _ _
      exact ⟨h1, h2, h3, h4, rfl, rfl, h5, h6, h7, by simpa using h8, by simpa using h9⟩
  | cons d ds ih =>
      intro g t h1 h2 h3 h4 h5 h6 h7 h8 h9 h10 h11 h12
      have hd0 : 0 ≤ d := h11 d (by simp)
      have hds0 : 0 ≤ ds.sum := List.sum_nonneg (fun x hx => h11 x (by simp [hx]))
      have htd1 : t + d ≤ 1 := by
        rw [List.sum_cons] at h12
        linarith
      have hsp : g.spawn_acc + d < spawn_interval ⌊(g.elapsed + d) / 60⌋ := by
        rw [h8, h9]
        have hfl : ⌊(t + d) / 60⌋ = (0 : ℤ) := by
          rw [Int.floor_eq_zero_iff, Set.mem_Ico]
          constructor
          · exact div_nonneg (by linarith) (by norm_num)
          · rw [div_lt_one (by norm_num)]
            linarith
        rw [hfl]
        exact lt_of_le_of_lt (by linarith : t + d ≤ 1)
          (lt_of_lt_of_le (by norm_num [BASE_SPAWN]) (le_max_right _ _))
      have hstep := frame_idle env src d g h1 h2 h3 h4 hsp
      have hid := end_checks_id
        { g with
          player := { g.player with attack_timer := g.player.attack_timer - d },
          elapsed := g.elapsed + d, spawn_acc := g.spawn_acc + d }
        (by show g.player.xp < g.player.level * 5
            rw [h6, h7]
            norm_num)
        (by show (0 : ℚ) < g.player.hp
            rw [h5]
            norm_num)
        (by show g.elapsed + d < LEVEL_DURATION_SECONDS
            rw [h8]
            simp only [LEVEL_DURATION_SECONDS]
            linarith)
      rw [List.foldl_cons]
      have happ := ih (frame env src d noKeys [] g) (t + d)
        (by rw [hstep, hid]; exact h1)
        (by rw [hstep, hid]; exact h2)
        (by rw [hstep, hid]; exact h3)
        (by rw [hstep, hid]; exact h4)
        (by rw [hstep, hid]; exact h5)
        (by rw [hstep, hid]; exact h6)
        (by rw [hstep, hid]; exact h7)
        (by rw [hstep, hid]
            show g.elapsed + d = t + d
            rw [h8])
        (by rw [hstep, hid]
            show g.spawn_acc + d = t + d
            rw [h9])
        (by linarith)
        (fun x hx => h11 x (by simp [hx]))
        (by rw [List.sum_cons] at h12
            linarith)
      obtain ⟨a1, a2, a3, a4, a5, a6, a7, a8, a9, a10, a11⟩ := happ
      refine ⟨a1, a2, a3, a4, ?_, ?_, a7, a8, a9, ?_, ?_⟩
      · rw [a5, hstep, hid]
      · rw [a6, hstep, hid]
      · rw [a10, List.sum_cons]
        ring
      · rw [a11, List.sum_cons]
        ring

/-- C9: in the playing state with no directional key held, a frame leaves the
player's position unchanged whatever the world holds; and from the initial
state (player at the world center, 100 hit points, no mob, projectile or lava
pool) advancing one simulated second of input-free frames leaves hit points
and position unchanged, advances elapsed time by exactly 1 and keeps the
state playing. -/
theorem C9_no_input_invariance (env : FloatEnv) (src : RandomSource) :
    (∀ (dt : ℚ) (events : List PyEvent) (g : GameState), g.state = "playing" →
      (frame env src dt noKeys events g).player.x = g.player.x ∧
      (frame env src dt noKeys events g).player.y = g.player.y) ∧
    (∀ (obstacles : List Obstacle) (champ : String) (fs : List ℚ),
      (∀ d ∈ fs, 0 ≤ d) → fs.sum = 1 →
      (fs.foldl (fun a d => frame env src d noKeys [] a)
          (initGameState obstacles champ)).player.x =
        (initGameState obstacles champ).player.x ∧
      (fs.foldl (fun a d => frame env src d noKeys [] a)
          (initGameState obstacles champ)).player.y =
        (initGameState obstacles champ).player.y ∧
      (fs.foldl (fun a d => frame env src d noKeys [] a)
          (initGameState obstacles champ)).player.hp = 100 ∧
      (fs.foldl (fun a d => frame env src d noKeys [] a)
          (initGameState obstacles champ)).elapsed = 1 ∧
      (fs.foldl (fun a d => frame env src d noKeys [] a)
          (initGameState obstacles champ)).state = "playing") := by
  constructor
  · intro dt events g hst
    obtain ⟨G, h1, _, _, h4⟩ := frame_playing_spec env src dt noKeys events g hst
    obtain ⟨hx, hy⟩ := h4 rfl
    constructor
    · rw [h1, end_checks_player_x, hx]
    · rw [h1, end_checks_player_y, hy]
  · intro obstacles champ fs hpos hsum
    obtain ⟨a1, _, _, _, a5, a6, a7, _, _, a10, _⟩ :=
      idle_steps env src fs (initGameState obstacles champ) 0 rfl rfl rfl rfl rfl rfl rfl
        rfl rfl le_rfl hpos (by rw [hsum]; norm_num)
    refine ⟨a5, a6, a7, ?_, a1⟩
    rw [a10, hsum]
    norm_num

/-- C9 witness: the no-input theorem instantiated on the initial mage state,
with the one simulated second taken as a single frame. -/
theorem C9_witness :
    ((frame envZero srcZero 1 noKeys [] (initGameState [] "mage")).player.x =
        (initGameState [] "mage").player.x ∧
      (frame envZero srcZero 1 noKeys [] (initGameState [] "mage")).player.y =
        (initGameState [] "mage").player.y) ∧
    (([1] : List ℚ).foldl (fun a d => frame envZero srcZero d noKeys [] a)
        (initGameState [] "mage")).player.hp = 100 ∧
    (([1] : List ℚ).foldl (fun a d => frame envZero srcZero d noKeys [] a)
        (initGameState [] "mage")).elapsed = 1 ∧
    (([1] : List ℚ).foldl (fun a d => frame envZero srcZero d noKeys [] a)
        (initGameState [] "mage")).state = "playing" := by
  have hp2 := (C9_no_input_invariance envZero srcZero).2 [] "mage" [1]
    (by norm_num) (by norm_num)
  exact ⟨(C9_no_input_invariance envZero srcZero).1 1 [] (initGameState [] "mage") rfl,
    hp2.2.2.1, hp2.2.2.2.1, hp2.2.2.2.2⟩

end Survivor
